import Mathlib

/-!
Shallow embedding of the library-system backend (src/backend), centred on the
borrow / return / fine / pay lifecycle of `main.py` and the data model of
`models.py`.

Modelling conventions:
* Relational tables are Lean lists of structures; `db.get(Model, id)` is
  `List.find?` on the primary key, and a row UPDATE is a keyed `List.map`.
* `DECIMAL(10,2)` money columns are represented exactly as an integer number
  of hundredths of a currency unit (`Money := Int`); the fixed damage fine of
  10.0 currency units is thus the constant `damageFineAmount = 1000`.
* Timestamps are integer seconds; `timedelta(days = n)` is `86400 * n`, and
  Python's `(now - due).days` for a positive delta is floor division by 86400.
* Inert metadata columns never read by the modelled operations (titles, isbn,
  contact fields, created_at, ...) are omitted.
* A failed request never commits: each operation either returns a whole new
  database state or an error, and `applyOp` keeps the old state on error,
  mirroring the per-request transaction/rollback of the source.
* Database-level constraint failures on commit (e.g. a duplicate barcode on a
  copy UPDATE, which the code does not pre-check) abort the transaction and
  change nothing; they are not modelled as separate error paths.
-/

/-- `book_copy.status` enum from models.py. -/
inductive CopyStatus
  | available
  | borrowed
  | lost
  | repair
deriving DecidableEq, Repr

/-- `reader.status` enum from models.py. -/
inductive ReaderStatus
  | active
  | blocked
deriving DecidableEq, Repr

/-- `borrow_record.status` enum from models.py. -/
inductive BorrowStatus
  | borrowed
  | returned
  | overdue_returned
  | lost
  | damaged_returned
deriving DecidableEq, Repr

/-- `borrow_record.fine_status` enum from models.py: none / unpaid / paid. -/
inductive FineStatus
  | none
  | unpaid
  | paid
deriving DecidableEq, Repr

/-- `fine_record.status` enum from models.py: unpaid / paid. -/
inductive FineRecStatus
  | unpaid
  | paid
deriving DecidableEq, Repr

/-- `fine_record.reason` enum from models.py. -/
inductive FineReason
  | overdue
  | damage
  | lost
  | other
deriving DecidableEq, Repr

/-- `payment_record.method` enum from models.py. -/
inductive PayMethod
  | cash
  | wechat
  | alipay
  | card
  | other
deriving DecidableEq, Repr

/-- `user.role` enum from models.py. -/
inductive Role
  | admin
  | librarian
  | reader
deriving DecidableEq, Repr

/-- DECIMAL(10,2) amounts, exactly, in hundredths of a currency unit. -/
abbrev Money := Int

/-- Timestamps in seconds. -/
abbrev Time := Int

/-- `reader_category` row (models.py). -/
structure ReaderCategory where
  category_id : Nat
  max_borrow_count : Int
  max_borrow_days : Int
  fine_per_day : Money
deriving DecidableEq, Repr

/-- `reader` row (models.py); contact metadata omitted. -/
structure Reader where
  reader_id : Nat
  category_id : Nat
  status : ReaderStatus
  borrowed_count : Int
  fine_balance : Money
  fine_total_history : Money
deriving DecidableEq, Repr

/-- `book` row (models.py); bibliographic metadata omitted. -/
structure Book where
  book_id : Nat
  total_copies : Int
  available_copies : Int
deriving DecidableEq, Repr

/-- `book_copy` row (models.py). -/
structure BookCopy where
  copy_id : Nat
  book_id : Nat
  barcode : String
  location : Option String
  status : CopyStatus
deriving DecidableEq, Repr

/-- `borrow_record` row (models.py). -/
structure BorrowRecord where
  borrow_id : Nat
  reader_id : Nat
  copy_id : Nat
  book_id : Nat
  borrow_time : Time
  due_time : Time
  return_time : Option Time
  status : BorrowStatus
  overdue_days : Int
  is_damaged : Bool
  damage_desc : Option String
  fine_amount : Money
  fine_status : FineStatus
deriving DecidableEq, Repr

/-- `fine_record` row (models.py). -/
structure FineRecord where
  fine_id : Nat
  reader_id : Nat
  borrow_id : Option Nat
  reason : FineReason
  amount : Money
  status : FineRecStatus
  paid_at : Option Time
deriving DecidableEq, Repr

/-- `payment_record` row (models.py). -/
structure PaymentRecord where
  pay_id : Nat
  reader_id : Nat
  fine_id : Nat
  amount : Money
  method : PayMethod
  paid_at : Time
deriving DecidableEq, Repr

/-- The relational state touched by the lifecycle endpoints.  `next_id` is the
fresh surrogate key used for every INSERT (one shared sequence suffices for
reasoning about autoincrement columns). -/
structure DB where
  categories : List ReaderCategory
  readers : List Reader
  books : List Book
  copies : List BookCopy
  borrows : List BorrowRecord
  fines : List FineRecord
  payments : List PaymentRecord
  next_id : Nat
deriving DecidableEq, Repr

/-- The authenticated caller: the token payload fields read by the lifecycle
endpoints (`user["role"]`, `user.get("reader_id")`). -/
structure UserCtx where
  role : Role
  reader_id : Option Nat
deriving DecidableEq, Repr

/-- schemas.CopyIn: `book_id` and `barcode` are required fields, `status` and
`location` are optional; `none` means the field was absent from the request
(pydantic exclude_unset), in which case the POST default is
status = "available" and an UPDATE leaves the column unchanged. -/
structure CopyIn where
  book_id : Nat
  barcode : String
  location : Option String
  status : Option CopyStatus
deriving DecidableEq, Repr

/-- The distinct HTTPException outcomes of the modelled endpoints; the last
constructor models the unhandled AttributeError when a reader's category row
is missing (a 500, not a designed error). -/
inductive ApiError
  | readerNotBound
  | missingReaderId
  | readerNotActive
  | maxBorrowReached
  | unpaidFineBlocks
  | copyNotBorrowable
  | noAvailableStock
  | borrowNotFoundOrReturned
  | notOwnBorrow
  | dataInconsistent
  | fineNotFoundOrPaid
  | notOwnFine
  | fineReaderMissing
  | copyNotFound
  | copyBorrowedNoDelete
  | bookNotFound
  | bookHasCopies
  | barcodeExists
  | categoryMissing
deriving DecidableEq, Repr

/-- `db.get(Model, k)`: first row whose key column equals `k`. -/
def findByKey {α : Type} (key : α → Nat) (k : Nat) (l : List α) : Option α :=
  l.find? (fun x => key x == k)

/-- SQL UPDATE of the row(s) whose key column equals `k`. -/
def updByKey {α : Type} (key : α → Nat) (k : Nat) (f : α → α) (l : List α) : List α :=
  l.map (fun x => if key x == k then f x else x)

def findReader (db : DB) (rid : Nat) : Option Reader :=
  findByKey Reader.reader_id rid db.readers

def findCategory (db : DB) (cid : Nat) : Option ReaderCategory :=
  findByKey ReaderCategory.category_id cid db.categories

def findBook (db : DB) (bid : Nat) : Option Book :=
  findByKey Book.book_id bid db.books

def findCopy (db : DB) (cid : Nat) : Option BookCopy :=
  findByKey BookCopy.copy_id cid db.copies

def findBorrow (db : DB) (bid : Nat) : Option BorrowRecord :=
  findByKey BorrowRecord.borrow_id bid db.borrows

def findFine (db : DB) (fid : Nat) : Option FineRecord :=
  findByKey FineRecord.fine_id fid db.fines

/-- Python truthiness of an optional integer: `None` and `0` are falsy
(`if not reader_id`, `if fr.borrow_id`). -/
def pyTruthy (o : Option Nat) : Bool :=
  o.getD 0 != 0

/-- Python `s or "default"` on an optional string: None and "" are falsy
(`data.damage_desc or "damaged"`). -/
def pyStrOr (o : Option String) (d : String) : String :=
  match o with
  | Option.none => d
  | Option.some s => if s = "" then d else s

/-- main.py borrow, lines 341-347: resolve the acting reader.  A caller with
role "reader" uses the token's bound reader_id (any supplied `data.reader_id`
is overwritten); other roles must supply a truthy `data.reader_id`. -/
def borrowResolve (u : UserCtx) (dataReaderId : Option Nat) : Except ApiError Nat :=
  if u.role = Role.reader then
    if pyTruthy u.reader_id then Except.ok (u.reader_id.getD 0)
    else Except.error ApiError.readerNotBound
  else
    if pyTruthy dataReaderId then Except.ok (dataReaderId.getD 0)
    else Except.error ApiError.missingReaderId

/-- main.py borrow lines 369-386: the BorrowRecord INSERT and the three
counter/status mutations committed by a successful borrow. -/
def borrowCommit (db : DB) (r : Reader) (cat : ReaderCategory) (c : BookCopy)
    (b : Book) (now : Time) : DB × BorrowRecord :=
  let br : BorrowRecord :=
    { borrow_id := db.next_id
      reader_id := r.reader_id
      copy_id := c.copy_id
      book_id := b.book_id
      borrow_time := now
      due_time := now + 86400 * cat.max_borrow_days
      return_time := Option.none
      status := BorrowStatus.borrowed
      overdue_days := 0
      is_damaged := false
      damage_desc := Option.none
      fine_amount := 0
      fine_status := FineStatus.none }
  let db' : DB :=
    { db with
      borrows := db.borrows ++ [br]
      copies := updByKey BookCopy.copy_id c.copy_id
        (fun x => { x with status := CopyStatus.borrowed }) db.copies
      books := updByKey Book.book_id b.book_id
        (fun x => { x with available_copies := x.available_copies - 1 }) db.books
      readers := updByKey Reader.reader_id r.reader_id
        (fun x => { x with borrowed_count := x.borrowed_count + 1 }) db.readers
      next_id := db.next_id + 1 }
  (db', br)

/-- main.py `borrow` (POST /api/borrow), lines 338-389. -/
def borrow (db : DB) (u : UserCtx) (dataReaderId : Option Nat) (copyId : Nat)
    (now : Time) : Except ApiError (DB × BorrowRecord) :=
  match borrowResolve u dataReaderId with
  | Except.error e => Except.error e
  | Except.ok rid =>
    match findReader db rid with
    | Option.none => Except.error ApiError.readerNotActive
    | Option.some r =>
      if r.status ≠ ReaderStatus.active then Except.error ApiError.readerNotActive
      else
        match findCategory db r.category_id with
        | Option.none => Except.error ApiError.categoryMissing
        | Option.some cat =>
          if r.borrowed_count ≥ cat.max_borrow_count then
            Except.error ApiError.maxBorrowReached
          else if r.fine_balance > 0 then
            Except.error ApiError.unpaidFineBlocks
          else
            match findCopy db copyId with
            | Option.none => Except.error ApiError.copyNotBorrowable
            | Option.some c =>
              if c.status ≠ CopyStatus.available then
                Except.error ApiError.copyNotBorrowable
              else
                match findBook db c.book_id with
                | Option.none => Except.error ApiError.noAvailableStock
                | Option.some b =>
                  if b.available_copies ≤ 0 then
                    Except.error ApiError.noAvailableStock
                  else
                    Except.ok (borrowCommit db r cat c b now)

/-- main.py return_book, line 418: `(now - due).days` for `now > due`. -/
def overdueDaysOf (now due : Time) : Int :=
  if now > due then max 0 ((now - due) / 86400) else 0

/-- The fixed damage fine of main.py line 427 (10.0 currency units). -/
def damageFineAmount : Money := 1000

/-- main.py return_book lines 413-421: the overdue part of the fine and the
status label before the damage branch.  `cat = r.category` is only
dereferenced inside the overdue branch, so a missing category row (an
unhandled AttributeError) only faults there. -/
def overdueAssess (db : DB) (r : Reader) (overdue_days : Int) :
    Except ApiError (Money × BorrowStatus) :=
  if overdue_days > 0 then
    match findCategory db r.category_id with
    | Option.none => Except.error ApiError.categoryMissing
    | Option.some cat =>
      Except.ok (overdue_days * cat.fine_per_day, BorrowStatus.overdue_returned)
  else Except.ok (0, BorrowStatus.returned)

/-- main.py return_book lines 423-457: the damage branch and the committed
mutations of the successful return path.  `br` is the open record, `r`, `c`,
`b` the linked rows, `fine0`/`status0` the overdue assessment. -/
def returnCommit (db : DB) (br : BorrowRecord) (r : Reader) (c : BookCopy) (b : Book)
    (overdue_days : Int) (fine0 : Money) (status0 : BorrowStatus) (isDamaged : Bool)
    (damageDesc : Option String) (now : Time) : DB × BorrowRecord :=
  let fine : Money := if isDamaged then fine0 + damageFineAmount else fine0
  let status : BorrowStatus := if isDamaged then BorrowStatus.damaged_returned else status0
  let br' : BorrowRecord :=
    { br with
      return_time := Option.some now
      overdue_days := overdue_days
      is_damaged := if isDamaged then true else br.is_damaged
      damage_desc := if isDamaged then Option.some (pyStrOr damageDesc ("damaged"))
                     else br.damage_desc
      status := status
      fine_amount := if fine > 0 then fine else 0
      fine_status := if fine > 0 then FineStatus.unpaid else FineStatus.none }
  let db' : DB :=
    { db with
      borrows := updByKey BorrowRecord.borrow_id br.borrow_id (fun _ => br') db.borrows
      copies := if c.status = CopyStatus.borrowed then
                  updByKey BookCopy.copy_id c.copy_id
                    (fun x => { x with status := CopyStatus.available }) db.copies
                else db.copies
      books := updByKey Book.book_id b.book_id
        (fun x => { x with available_copies := x.available_copies + 1 }) db.books
      readers := updByKey Reader.reader_id r.reader_id
        (fun x =>
          if fine > 0 then
            { x with borrowed_count := max 0 (x.borrowed_count - 1)
                     fine_balance := x.fine_balance + fine
                     fine_total_history := x.fine_total_history + fine }
          else { x with borrowed_count := max 0 (x.borrowed_count - 1) }) db.readers
      fines := if fine > 0 then
                 db.fines ++ [{ fine_id := db.next_id
                                reader_id := r.reader_id
                                borrow_id := Option.some br.borrow_id
                                reason := if overdue_days > 0 then FineReason.overdue
                                          else FineReason.damage
                                amount := fine
                                status := FineRecStatus.unpaid
                                paid_at := Option.none }]
               else db.fines
      next_id := if fine > 0 then db.next_id + 1 else db.next_id }
  (db', br')

/-- main.py `return_book` (POST /api/return), lines 391-461. -/
def return_book (db : DB) (u : UserCtx) (borrowId : Nat) (isDamaged : Bool)
    (damageDesc : Option String) (now : Time) : Except ApiError (DB × BorrowRecord) :=
  match findBorrow db borrowId with
  | Option.none => Except.error ApiError.borrowNotFoundOrReturned
  | Option.some br =>
    if br.status ≠ BorrowStatus.borrowed then
      Except.error ApiError.borrowNotFoundOrReturned
    else if u.role = Role.reader ∧ u.reader_id ≠ Option.some br.reader_id then
      Except.error ApiError.notOwnBorrow
    else
      -- lines 401-405: `if not r or not c or not b: 数据不一致`
      match findReader db br.reader_id with
      | Option.none => Except.error ApiError.dataInconsistent
      | Option.some r =>
        match findCopy db br.copy_id with
        | Option.none => Except.error ApiError.dataInconsistent
        | Option.some c =>
          match findBook db br.book_id with
          | Option.none => Except.error ApiError.dataInconsistent
          | Option.some b =>
            match overdueAssess db r (overdueDaysOf now br.due_time) with
            | Except.error e => Except.error e
            | Except.ok (fine0, status0) =>
              Except.ok (returnCommit db br r c b (overdueDaysOf now br.due_time)
                fine0 status0 isDamaged damageDesc now)

/-- main.py pay_fine line 498: normalize the payment method string. -/
def normMethod (m : String) : PayMethod :=
  if m = "cash" then PayMethod.cash
  else if m = "wechat" then PayMethod.wechat
  else if m = "alipay" then PayMethod.alipay
  else if m = "card" then PayMethod.card
  else PayMethod.other

/-- main.py pay_fine lines 493-511: the PaymentRecord INSERT and the
mutations committed by a successful payment.  Lines 506-509 mirror the
fine_status into the linked borrow record: `if fr.borrow_id` is Python
truthiness, and a dangling id updates nothing, matching the inner `if br`
guard. -/
def payCommit (db : DB) (fr : FineRecord) (r : Reader) (method : String)
    (now : Time) : DB :=
  let pr : PaymentRecord :=
    { pay_id := db.next_id
      reader_id := fr.reader_id
      fine_id := fr.fine_id
      amount := fr.amount
      method := normMethod method
      paid_at := now }
  { db with
    payments := db.payments ++ [pr]
    fines := updByKey FineRecord.fine_id fr.fine_id
      (fun x => { x with status := FineRecStatus.paid, paid_at := Option.some now }) db.fines
    readers := updByKey Reader.reader_id r.reader_id
      (fun x => { x with fine_balance := max 0 (x.fine_balance - fr.amount) }) db.readers
    borrows := if pyTruthy fr.borrow_id then
                 updByKey BorrowRecord.borrow_id (fr.borrow_id.getD 0)
                   (fun x => { x with fine_status := FineStatus.paid }) db.borrows
               else db.borrows
    next_id := db.next_id + 1 }

/-- main.py `pay_fine` (POST /api/fines/{fine_id}/pay), lines 481-515. -/
def pay_fine (db : DB) (u : UserCtx) (fineId : Nat) (method : String)
    (now : Time) : Except ApiError DB :=
  match findFine db fineId with
  | Option.none => Except.error ApiError.fineNotFoundOrPaid
  | Option.some fr =>
    if fr.status ≠ FineRecStatus.unpaid then
      Except.error ApiError.fineNotFoundOrPaid
    else if u.role = Role.reader ∧ u.reader_id ≠ Option.some fr.reader_id then
      Except.error ApiError.notOwnFine
    else
      match findReader db fr.reader_id with
      | Option.none => Except.error ApiError.fineReaderMissing
      | Option.some r => Except.ok (payCommit db fr r method now)

/-- main.py create_copy lines 277-286: the INSERT and counter updates of a
successful copy creation. -/
def createCopyCommit (db : DB) (b : Book) (data : CopyIn) : DB × BookCopy :=
  let c : BookCopy :=
    { copy_id := db.next_id
      book_id := data.book_id
      barcode := data.barcode
      location := data.location
      status := data.status.getD CopyStatus.available }
  let db' : DB :=
    { db with
      copies := db.copies ++ [c]
      books := updByKey Book.book_id b.book_id
        (fun x => { x with
            total_copies := x.total_copies + 1
            available_copies := x.available_copies +
              (if c.status = CopyStatus.available then 1 else 0) }) db.books
      next_id := db.next_id + 1 }
  (db', c)

/-- main.py `create_copy` (POST /api/copies), lines 269-290. -/
def create_copy (db : DB) (data : CopyIn) : Except ApiError (DB × BookCopy) :=
  match findBook db data.book_id with
  | Option.none => Except.error ApiError.bookNotFound
  | Option.some b =>
    if (db.copies.find? (fun x => x.barcode == data.barcode)).isSome then
      Except.error ApiError.barcodeExists
    else
      Except.ok (createCopyCommit db b data)

/-- main.py update_copy lines 301-302: the setattr loop over the provided
CopyIn fields (book_id and barcode are required and hence always set; status
and location only when present in the request). -/
def updateCopyRow (c : BookCopy) (data : CopyIn) : BookCopy :=
  { c with
    book_id := data.book_id
    barcode := data.barcode
    location := match data.location with
                | Option.some s => Option.some s
                | Option.none => c.location
    status := data.status.getD c.status }

/-- main.py update_copy lines 297-316: the committed mutations of a copy
update.  The owning book `b` is fetched by the copy's book_id BEFORE the
update (line 298), so a status-change adjustment always lands on the
previous owner. -/
def updateCopyCommit (db : DB) (c : BookCopy) (cid : Nat) (data : CopyIn) :
    DB × BookCopy :=
  let old_status := c.status
  let c' := updateCopyRow c data
  let db' : DB :=
    { db with
      copies := updByKey BookCopy.copy_id cid (fun _ => c') db.copies
      books := match findBook db c.book_id with
               | Option.none => db.books
               | Option.some b =>
                 if old_status ≠ c'.status then
                   updByKey Book.book_id b.book_id
                     (fun x => { x with available_copies := x.available_copies
                         + (if c'.status = CopyStatus.available then 1 else 0)
                         - (if old_status = CopyStatus.available then 1 else 0) }) db.books
                 else db.books }
  (db', c')

/-- main.py `update_copy` (PUT /api/copies/{cid}), lines 292-316. -/
def update_copy (db : DB) (cid : Nat) (data : CopyIn) : Except ApiError (DB × BookCopy) :=
  match findCopy db cid with
  | Option.none => Except.error ApiError.copyNotFound
  | Option.some c => Except.ok (updateCopyCommit db c cid data)

/-- main.py delete_copy lines 325-331: the counter adjustment and row removal
of a successful copy deletion. -/
def deleteCopyCommit (db : DB) (c : BookCopy) : DB :=
  { db with
    books := match findBook db c.book_id with
             | Option.none => db.books
             | Option.some b =>
               updByKey Book.book_id b.book_id
                 (fun x => { x with
                     total_copies := x.total_copies - 1
                     available_copies := x.available_copies -
                       (if c.status = CopyStatus.available then 1 else 0) }) db.books
    copies := db.copies.eraseP (fun x => x.copy_id == c.copy_id) }

/-- main.py `delete_copy` (DELETE /api/copies/{cid}), lines 318-335. -/
def delete_copy (db : DB) (cid : Nat) : Except ApiError DB :=
  match findCopy db cid with
  | Option.none => Except.error ApiError.copyNotFound
  | Option.some c =>
    if c.status = CopyStatus.borrowed then
      Except.error ApiError.copyBorrowedNoDelete
    else
      Except.ok (deleteCopyCommit db c)

/-- main.py `delete_book_api` (DELETE /api/books/{bid}), lines 247-259. -/
def delete_book_api (db : DB) (bid : Nat) : Except ApiError DB :=
  match findBook db bid with
  | Option.none => Except.error ApiError.bookNotFound
  | Option.some _ =>
    if (db.copies.find? (fun x => x.book_id == bid)).isSome then
      Except.error ApiError.bookHasCopies
    else
      Except.ok { db with books := db.books.eraseP (fun x => x.book_id == bid) }

/-- The API operations quantified over by the counter-invariant claim:
borrow, return, pay fine, and copy create / update / delete. -/
inductive Op
  | borrowOp (u : UserCtx) (dataReaderId : Option Nat) (copyId : Nat) (now : Time)
  | returnOp (u : UserCtx) (borrowId : Nat) (isDamaged : Bool)
      (damageDesc : Option String) (now : Time)
  | payOp (u : UserCtx) (fineId : Nat) (method : String) (now : Time)
  | createCopyOp (data : CopyIn)
  | updateCopyOp (cid : Nat) (data : CopyIn)
  | deleteCopyOp (cid : Nat)
deriving DecidableEq, Repr

/-- Run one operation, keeping only the resulting state. -/
def runOp (db : DB) : Op → Except ApiError DB
  | Op.borrowOp u d c n => (borrow db u d c n).map Prod.fst
  | Op.returnOp u bid dmg desc n => (return_book db u bid dmg desc n).map Prod.fst
  | Op.payOp u fid m n => pay_fine db u fid m n
  | Op.createCopyOp data => (create_copy db data).map Prod.fst
  | Op.updateCopyOp cid data => (update_copy db cid data).map Prod.fst
  | Op.deleteCopyOp cid => delete_copy db cid

/-- One request: on error the transaction rolls back and the state is kept. -/
def applyOp (db : DB) (op : Op) : DB :=
  match runOp db op with
  | Except.ok db' => db'
  | Except.error _ => db

/-- A sequence of API requests. -/
def runOps (db : DB) (ops : List Op) : DB :=
  ops.foldl applyOp db

/-- The two operation/state combinations under which the code is known to
break the available-copies counter: a copy update that moves the copy to a
different book, and a return of an open borrow whose copy row is missing its
"borrowed" status or points at a different book than the record.  Every other
combination is "safe". -/
def safeOp (db : DB) : Op → Bool
  | Op.updateCopyOp cid data =>
    (match findCopy db cid with
     | Option.none => true
     | Option.some c => decide (data.book_id = c.book_id))
  | Op.returnOp _ bid _ _ _ =>
    (match findBorrow db bid with
     | Option.none => true
     | Option.some br =>
       if br.status ≠ BorrowStatus.borrowed then true
       else
         match findCopy db br.copy_id with
         | Option.none => true
         | Option.some c =>
           decide (c.status = CopyStatus.borrowed ∧ c.book_id = br.book_id))
  | _ => true

/-- Every step of the sequence is safe in the state in which it runs. -/
def safeSeq : DB → List Op → Bool
  | _, [] => true
  | db, op :: ops => safeOp db op && safeSeq (applyOp db op) ops

/-- The canonical string of each payment method enum value. -/
def methodStr : PayMethod → String
  | PayMethod.cash => "cash"
  | PayMethod.wechat => "wechat"
  | PayMethod.alipay => "alipay"
  | PayMethod.card => "card"
  | PayMethod.other => "other"

/-! ### Concrete fixtures used to witness the theorems on explicit data -/

/-- A staff caller (no bound reader). -/
def staffU : UserCtx := ⟨Role.admin, Option.none⟩

/-- A reader caller bound to reader 1. -/
def readerU : UserCtx := ⟨Role.reader, Option.some 1⟩

/-- Category: max 3 books, 14 days, 0.50/day (50 hundredths). -/
def fixCat : ReaderCategory := ⟨1, 3, 14, 50⟩

/-- Category with fine_per_day = 0. -/
def fixCatZero : ReaderCategory := ⟨1, 3, 14, 0⟩

def fixReader : Reader := ⟨1, 1, ReaderStatus.active, 0, 0, 0⟩

def fixBook : Book := ⟨1, 1, 1⟩

def fixCopy : BookCopy := ⟨1, 1, "BC1", Option.none, CopyStatus.available⟩

/-- One active reader, one book with its single available copy. -/
def fixDb : DB := ⟨[fixCat], [fixReader], [fixBook], [fixCopy], [], [], [], 10⟩

/-- Same library but the category charges no overdue fine. -/
def fixDbZero : DB := ⟨[fixCatZero], [fixReader], [fixBook], [fixCopy], [], [], [], 10⟩

/-- The sequence that breaks the counter invariant: borrow copy 1, mark it
lost while it is out, then return the borrow record. -/
def fixBreakOps : List Op :=
  [Op.borrowOp staffU (Option.some 1) 1 0,
   Op.updateCopyOp 1 ⟨1, "BC1", Option.none, Option.some CopyStatus.lost⟩,
   Op.returnOp staffU 10 false Option.none 0]

/-- A benign lifecycle: borrow at day 0, return 20 days later (6 days
overdue, 3.00 fine), then pay the created fine. -/
def fixGoodOps : List Op :=
  [Op.borrowOp staffU (Option.some 1) 1 0,
   Op.returnOp staffU 10 false Option.none (20 * 86400),
   Op.payOp staffU 11 ("wechat") 1728000]

/-- An open borrow of copy 1 by reader 1 due at day 14. -/
def fixOpenBorrow : BorrowRecord :=
  ⟨6, 1, 1, 1, 0, 1209600, Option.none, BorrowStatus.borrowed, 0, false,
   Option.none, 0, FineStatus.none⟩

/-- State with one open borrow: copy 1 borrowed, reader 1 has it out. -/
def fixDbBorrowed : DB :=
  ⟨[fixCat], [⟨1, 1, ReaderStatus.active, 1, 0, 0⟩], [⟨1, 1, 0⟩],
   [⟨1, 1, "BC1", Option.none, CopyStatus.borrowed⟩], [fixOpenBorrow], [], [], 10⟩

/-- Like `fixDbBorrowed` but the copy was administratively marked lost while
out. -/
def fixDbLost : DB :=
  ⟨[fixCat], [⟨1, 1, ReaderStatus.active, 1, 0, 0⟩], [⟨1, 1, 0⟩],
   [⟨1, 1, "BC1", Option.none, CopyStatus.lost⟩], [fixOpenBorrow], [], [], 10⟩

/-- Borrow copy 1 then return it 20 days later (6 days overdue). -/
def fixZeroOps : List Op :=
  [Op.borrowOp staffU (Option.some 1) 1 0,
   Op.returnOp staffU 10 false Option.none (20 * 86400)]

/-- The state produced by returning `fixOpenBorrow` 6 days overdue in
`fixDbBorrowed`: copy available again, 3.00 fine record created. -/
def fixRetDb : DB :=
  ⟨[fixCat], [⟨1, 1, ReaderStatus.active, 0, 300, 300⟩], [⟨1, 1, 1⟩],
   [⟨1, 1, "BC1", Option.none, CopyStatus.available⟩],
   [⟨6, 1, 1, 1, 0, 1209600, Option.some 1728000, BorrowStatus.overdue_returned,
     6, false, Option.none, 300, FineStatus.unpaid⟩],
   [⟨10, 1, Option.some 6, FineReason.overdue, 300, FineRecStatus.unpaid, Option.none⟩],
   [], 11⟩

/-- The updated borrow record returned by that call. -/
def fixRetBr : BorrowRecord :=
  ⟨6, 1, 1, 1, 0, 1209600, Option.some 1728000, BorrowStatus.overdue_returned,
   6, false, Option.none, 300, FineStatus.unpaid⟩

/-- The state produced by returning `fixOpenBorrow` on time (no fine). -/
def fixRetOnTimeDb : DB :=
  ⟨[fixCat], [⟨1, 1, ReaderStatus.active, 0, 0, 0⟩], [⟨1, 1, 1⟩],
   [⟨1, 1, "BC1", Option.none, CopyStatus.available⟩],
   [⟨6, 1, 1, 1, 0, 1209600, Option.some 1000000, BorrowStatus.returned,
     0, false, Option.none, 0, FineStatus.none⟩],
   [], [], 10⟩

/-- The borrow record after the on-time return. -/
def fixRetOnTimeBr : BorrowRecord :=
  ⟨6, 1, 1, 1, 0, 1209600, Option.some 1000000, BorrowStatus.returned,
   0, false, Option.none, 0, FineStatus.none⟩

/-- The state produced by administratively marking copy 1 "lost" in
`fixDb`. -/
def fixUpdDb : DB :=
  ⟨[fixCat], [fixReader], [⟨1, 1, 0⟩],
   [⟨1, 1, "BC1", Option.none, CopyStatus.lost⟩], [], [], [], 10⟩

/-- Copy 1 after being marked lost. -/
def fixUpdCopy : BookCopy := ⟨1, 1, "BC1", Option.none, CopyStatus.lost⟩

/-- The state produced by returning borrow 6 while its copy is "lost": the
copy row is untouched yet the availability counter is incremented. -/
def fixRetLostDb : DB :=
  ⟨[fixCat], [⟨1, 1, ReaderStatus.active, 0, 0, 0⟩], [⟨1, 1, 1⟩],
   [⟨1, 1, "BC1", Option.none, CopyStatus.lost⟩],
   [⟨6, 1, 1, 1, 0, 1209600, Option.some 1000000, BorrowStatus.returned,
     0, false, Option.none, 0, FineStatus.none⟩],
   [], [], 10⟩

/-- The state produced by moving copy 1 to book 2 without a status change. -/
def fixMoveDb : DB :=
  ⟨[fixCat], [fixReader], [fixBook],
   [⟨1, 2, "BC1", Option.none, CopyStatus.available⟩], [], [], [], 10⟩

/-- Copy 1 after being reassigned to book 2. -/
def fixMoveCopy : BookCopy := ⟨1, 2, "BC1", Option.none, CopyStatus.available⟩

/-- An unpaid 3.00 fine of reader 1 linked to borrow 6, already returned. -/
def fixUnpaidFine : FineRecord :=
  ⟨5, 1, Option.some 6, FineReason.overdue, 300, FineRecStatus.unpaid, Option.none⟩

/-- State with an unpaid fine: the borrow is returned overdue, balance 3.00. -/
def fixDbFine : DB :=
  ⟨[fixCat], [⟨1, 1, ReaderStatus.active, 0, 300, 300⟩], [⟨1, 1, 1⟩],
   [⟨1, 1, "BC1", Option.none, CopyStatus.available⟩],
   [⟨6, 1, 1, 1, 0, 1209600, Option.some 1728000, BorrowStatus.overdue_returned,
     6, false, Option.none, 300, FineStatus.unpaid⟩],
   [fixUnpaidFine], [], 10⟩

/-- The state produced by paying `fixUnpaidFine` by wechat at t = 2000000. -/
def fixPayDb : DB :=
  ⟨[fixCat], [⟨1, 1, ReaderStatus.active, 0, 0, 300⟩], [⟨1, 1, 1⟩],
   [⟨1, 1, "BC1", Option.none, CopyStatus.available⟩],
   [⟨6, 1, 1, 1, 0, 1209600, Option.some 1728000, BorrowStatus.overdue_returned,
     6, false, Option.none, 300, FineStatus.paid⟩],
   [⟨5, 1, Option.some 6, FineReason.overdue, 300, FineRecStatus.paid,
     Option.some 2000000⟩],
   [⟨10, 1, 5, 300, PayMethod.wechat, 2000000⟩], 11⟩

/-- State with a paid fine and a returned borrow (for the idempotence
rejections). -/
def fixDbPaid : DB :=
  ⟨[fixCat], [⟨1, 1, ReaderStatus.active, 0, 0, 300⟩], [⟨1, 1, 1⟩],
   [⟨1, 1, "BC1", Option.none, CopyStatus.available⟩],
   [⟨6, 1, 1, 1, 0, 1209600, Option.some 1728000, BorrowStatus.overdue_returned,
     6, false, Option.none, 300, FineStatus.paid⟩],
   [⟨5, 1, Option.some 6, FineReason.overdue, 300, FineRecStatus.paid,
     Option.some 1728000⟩],
   [⟨7, 1, 5, 300, PayMethod.cash, 1728000⟩], 10⟩

/-- The copy is an available copy of book `bid`. -/
def copyCountsAvail (bid : Nat) (x : BookCopy) : Bool :=
  decide (x.book_id = bid ∧ x.status = CopyStatus.available)

/-- Count of available copies of book `bid` in a copy table. -/
def countAvail (bid : Nat) (copies : List BookCopy) : Nat :=
  copies.countP (copyCountsAvail bid)

/-- The fine is an unpaid fine of reader `rid`. -/
def fineCountsUnpaid (rid : Nat) (f : FineRecord) : Bool :=
  decide (f.reader_id = rid ∧ f.status = FineRecStatus.unpaid)

/-- Sum of the amounts of reader `rid`'s unpaid fines in a fine table. -/
def sumUnpaid (rid : Nat) (fines : List FineRecord) : Money :=
  ((fines.filter (fineCountsUnpaid rid)).map FineRecord.amount).sum

/-- Number of copies of book `bid` whose status is "available". -/
def availCount (db : DB) (bid : Nat) : Nat :=
  countAvail bid db.copies

/-- Sum of the amounts of reader `rid`'s unpaid fine records. -/
def unpaidSum (db : DB) (rid : Nat) : Money :=
  sumUnpaid rid db.fines

/-- Every book's `available_copies` counter matches its available copies. -/
def AvailInv (db : DB) : Prop :=
  ∀ b ∈ db.books, b.available_copies = (availCount db b.book_id : Int)

/-- Every reader's `fine_balance` matches the sum of their unpaid fines. -/
def FineInv (db : DB) : Prop :=
  ∀ r ∈ db.readers, r.fine_balance = unpaidSum db r.reader_id

/-- The consistency invariant of the spec's "Counter invariant" sentence. -/
def CounterInv (db : DB) : Prop :=
  AvailInv db ∧ FineInv db

/-- Structural well-formedness of a database state: key columns are unique
where the proofs need it, `next_id` is fresh, and stored fine amounts are
non-negative (the code only ever creates strictly positive ones). -/
def WF (db : DB) : Prop :=
  (db.copies.map BookCopy.copy_id).Nodup ∧
  (db.fines.map FineRecord.fine_id).Nodup ∧
  (∀ c ∈ db.copies, c.copy_id < db.next_id) ∧
  (∀ f ∈ db.fines, f.fine_id < db.next_id) ∧
  (∀ f ∈ db.fines, 0 ≤ f.amount)

instance : DecidablePred AvailInv := fun db => by
  unfold AvailInv; infer_instance

instance : DecidablePred FineInv := fun db => by
  unfold FineInv; infer_instance

instance (db : DB) : Decidable (CounterInv db) := by
  unfold CounterInv; infer_instance

instance (db : DB) : Decidable (WF db) := by
  unfold WF; infer_instance

/-! ### Generic lemmas about keyed row lookup and update -/

section KeyedRows

variable {α : Type} {key : α → Nat}

theorem updByKey_cons {k : Nat} {f : α → α} {a : α} {t : List α} :
    updByKey key k f (a :: t) =
      (if key a == k then f a else a) :: updByKey key k f t := rfl

theorem updByKey_append {k : Nat} {f : α → α} {l1 l2 : List α} :
    updByKey key k f (l1 ++ l2) = updByKey key k f l1 ++ updByKey key k f l2 := by
  simp [updByKey]

theorem updByKey_eq_self {k : Nat} {f : α → α} {l : List α}
    (h : ∀ y ∈ l, key y ≠ k) : updByKey key k f l = l := by
  induction l with
  | nil => rfl
  | cons a t ih =>
    rw [updByKey_cons]
    have ha : (key a == k) = false := by
      simp [h a (List.mem_cons_self a t)]
    rw [ha]
    simp only [ite_false, Bool.false_eq_true]
    rw [ih (fun y hy => h y (List.mem_cons_of_mem a hy))]

theorem split_of_mem_nodup {l : List α} {x : α} (hx : x ∈ l)
    (hn : (l.map key).Nodup) :
    ∃ l1 l2, l = l1 ++ x :: l2 ∧ (∀ y ∈ l1, key y ≠ key x) ∧
      (∀ y ∈ l2, key y ≠ key x) := by
  obtain ⟨l1, l2, rfl⟩ := List.append_of_mem hx
  rw [List.map_append] at hn
  rw [List.nodup_append] at hn
  obtain ⟨h1, h2, hdis⟩ := hn
  refine ⟨l1, l2, rfl, ?_, ?_⟩
  · intro y hy hkey
    exact hdis (List.mem_map_of_mem key hy)
      (by rw [hkey]; exact List.mem_map_of_mem key (List.mem_cons_self x l2))
  · intro y hy hkey
    rw [List.map_cons, List.nodup_cons] at h2
    exact h2.1 (hkey ▸ List.mem_map_of_mem key hy)

theorem updByKey_split {x : α} {f : α → α} {l1 l2 : List α}
    (h1 : ∀ y ∈ l1, key y ≠ key x) :
    updByKey key (key x) f (l1 ++ x :: l2) =
      l1 ++ f x :: updByKey key (key x) f l2 := by
  rw [updByKey_append, updByKey_eq_self h1, updByKey_cons]
  simp

theorem updByKey_split_full {x : α} {f : α → α} {l1 l2 : List α}
    (h1 : ∀ y ∈ l1, key y ≠ key x) (h2 : ∀ y ∈ l2, key y ≠ key x) :
    updByKey key (key x) f (l1 ++ x :: l2) = l1 ++ f x :: l2 := by
  rw [updByKey_split h1, updByKey_eq_self h2]

theorem findByKey_split {x : α} {l1 l2 : List α}
    (h1 : ∀ y ∈ l1, key y ≠ key x) :
    findByKey key (key x) (l1 ++ x :: l2) = Option.some x := by
  induction l1 with
  | nil => simp [findByKey, List.find?_cons]
  | cons a t ih =>
    have ha : (key a == key x) = false := by
      simp [h1 a (List.mem_cons_self a t)]
    simp only [findByKey, List.cons_append, List.find?_cons, ha]
    exact ih (fun y hy => h1 y (List.mem_cons_of_mem a hy))

theorem findByKey_eq_some {k : Nat} {x : α} {l : List α}
    (h : findByKey key k l = Option.some x) : x ∈ l ∧ key x = k := by
  refine ⟨List.mem_of_find?_eq_some h, ?_⟩
  have := List.find?_some h
  simpa using this

theorem findByKey_eq_none {k : Nat} {l : List α}
    (h : findByKey key k l = Option.none) : ∀ y ∈ l, key y ≠ k := by
  intro y hy
  have := List.find?_eq_none.mp h y hy
  simpa using this

theorem findByKey_updByKey {k : Nat} (f : α → α) {l : List α}
    (hf : ∀ x, key x = k → key (f x) = k) :
    findByKey key k (updByKey key k f l) = (findByKey key k l).map f := by
  induction l with
  | nil => rfl
  | cons a t ih =>
    by_cases ha : key a = k
    · have hb : (key a == k) = true := by simp [ha]
      simp only [findByKey, updByKey_cons, hb, List.find?_cons, ite_true]
      have hfa : (key (f a) == k) = true := by simp [hf a ha]
      simp [hfa]
    · have hb : (key a == k) = false := by simp [ha]
      simp only [findByKey, updByKey_cons, hb, List.find?_cons, ite_false,
        Bool.false_eq_true]
      simpa [findByKey, hb] using ih

theorem findByKey_updByKey_ne {k k' : Nat} (f : α → α) {l : List α}
    (hne : k' ≠ k) (hf : ∀ x, key x = k → key (f x) = k) :
    findByKey key k' (updByKey key k f l) = findByKey key k' l := by
  induction l with
  | nil => rfl
  | cons a t ih =>
    by_cases ha : key a = k
    · have hb : (key a == k) = true := by simp [ha]
      have hfa : (key (f a) == k') = false := by simp [hf a ha]; omega
      have haa : (key a == k') = false := by simp [ha]; omega
      simp only [findByKey, updByKey_cons, hb, List.find?_cons, ite_true, hfa, haa]
      simpa [findByKey] using ih
    · have hb : (key a == k) = false := by simp [ha]
      simp only [findByKey, updByKey_cons, hb, List.find?_cons, ite_false,
        Bool.false_eq_true]
      by_cases ha' : key a = k'
      · simp [ha']
      · have : (key a == k') = false := by simp [ha']
        simp only [this]
        simpa [findByKey] using ih

theorem updByKey_map_key {k : Nat} {f : α → α} {l : List α}
    (hf : ∀ x, key x = k → key (f x) = k) :
    (updByKey key k f l).map key = l.map key := by
  unfold updByKey
  rw [List.map_map]
  apply List.map_congr_left
  intro a _
  by_cases ha : key a = k
  · simp [ha, hf a ha]
  · simp [ha]

theorem mem_updByKey {k : Nat} {f : α → α} {l : List α} {y : α}
    (hy : y ∈ updByKey key k f l) :
    ∃ x ∈ l, y = if key x == k then f x else x := by
  obtain ⟨x, hx, hxy⟩ := List.mem_map.mp hy
  exact ⟨x, hx, hxy.symm⟩

theorem eraseP_key_split {x : α} {l1 l2 : List α}
    (h1 : ∀ y ∈ l1, key y ≠ key x) :
    (l1 ++ x :: l2).eraseP (fun z => key z == key x) = l1 ++ l2 := by
  induction l1 with
  | nil =>
    simp only [List.nil_append]
    exact List.eraseP_cons_of_pos (by simp)
  | cons a t ih =>
    have ha : (key a == key x) = false := by
      simp [h1 a (List.mem_cons_self a t)]
    simp only [List.cons_append, List.eraseP_cons, ha, cond_false]
    rw [ih (fun y hy => h1 y (List.mem_cons_of_mem a hy))]

end KeyedRows

/-! ### Inversion lemmas: what a successful operation implies -/

theorem borrow_ok_inv {db : DB} {u : UserCtx} {d : Option Nat} {cid : Nat}
    {now : Time} {res : DB × BorrowRecord}
    (h : borrow db u d cid now = Except.ok res) :
    ∃ rid r cat c b,
      borrowResolve u d = Except.ok rid ∧
      findReader db rid = Option.some r ∧
      r.status = ReaderStatus.active ∧
      findCategory db r.category_id = Option.some cat ∧
      r.borrowed_count < cat.max_borrow_count ∧
      r.fine_balance ≤ 0 ∧
      findCopy db cid = Option.some c ∧
      c.status = CopyStatus.available ∧
      findBook db c.book_id = Option.some b ∧
      0 < b.available_copies ∧
      res = borrowCommit db r cat c b now := by
  unfold borrow at h
  split at h
  · cases h
  rename_i rid hres
  split at h
  · cases h
  rename_i r hr
  split at h
  · cases h
  rename_i hst
  split at h
  · cases h
  rename_i cat hcat
  split at h
  · cases h
  rename_i hcnt
  split at h
  · cases h
  rename_i hbal
  split at h
  · cases h
  rename_i c hc
  split at h
  · cases h
  rename_i hcs
  split at h
  · cases h
  rename_i b hb
  split at h
  · cases h
  rename_i hav
  injection h with h2
  exact ⟨rid, r, cat, c, b, hres, hr, not_not.mp hst, hcat, lt_of_not_le hcnt,
    le_of_not_lt hbal, hc, not_not.mp hcs, hb, lt_of_not_le hav, h2.symm⟩

theorem return_book_ok_inv {db : DB} {u : UserCtx} {bid : Nat} {dmg : Bool}
    {desc : Option String} {now : Time} {res : DB × BorrowRecord}
    (h : return_book db u bid dmg desc now = Except.ok res) :
    ∃ br r c b fine0 status0,
      findBorrow db bid = Option.some br ∧
      br.status = BorrowStatus.borrowed ∧
      ¬ (u.role = Role.reader ∧ u.reader_id ≠ Option.some br.reader_id) ∧
      findReader db br.reader_id = Option.some r ∧
      findCopy db br.copy_id = Option.some c ∧
      findBook db br.book_id = Option.some b ∧
      overdueAssess db r (overdueDaysOf now br.due_time) = Except.ok (fine0, status0) ∧
      res = returnCommit db br r c b (overdueDaysOf now br.due_time)
        fine0 status0 dmg desc now := by
  unfold return_book at h
  split at h
  · cases h
  rename_i br hbr
  split at h
  · cases h
  rename_i hst
  split at h
  · cases h
  rename_i hown
  split at h
  · cases h
  rename_i r hr
  split at h
  · cases h
  rename_i c hc
  split at h
  · cases h
  rename_i b hb
  split at h
  · cases h
  rename_i fs fine0 status0 hassess
  injection h with h2
  exact ⟨br, r, c, b, fine0, status0, hbr, not_not.mp hst, hown, hr, hc, hb,
    hassess, h2.symm⟩

theorem pay_fine_ok_inv {db : DB} {u : UserCtx} {fid : Nat} {m : String}
    {now : Time} {db' : DB}
    (h : pay_fine db u fid m now = Except.ok db') :
    ∃ fr r,
      findFine db fid = Option.some fr ∧
      fr.status = FineRecStatus.unpaid ∧
      ¬ (u.role = Role.reader ∧ u.reader_id ≠ Option.some fr.reader_id) ∧
      findReader db fr.reader_id = Option.some r ∧
      db' = payCommit db fr r m now := by
  unfold pay_fine at h
  split at h
  · cases h
  rename_i fr hfr
  split at h
  · cases h
  rename_i hst
  split at h
  · cases h
  rename_i hown
  split at h
  · cases h
  rename_i r hr
  injection h with h2
  exact ⟨fr, r, hfr, not_not.mp hst, hown, hr, h2.symm⟩

theorem create_copy_ok_inv {db : DB} {data : CopyIn} {res : DB × BookCopy}
    (h : create_copy db data = Except.ok res) :
    ∃ b,
      findBook db data.book_id = Option.some b ∧
      (db.copies.find? (fun x => x.barcode == data.barcode)).isSome = false ∧
      res = createCopyCommit db b data := by
  unfold create_copy at h
  split at h
  · cases h
  rename_i b hb
  split at h
  · cases h
  rename_i hbc
  injection h with h2
  exact ⟨b, hb, by simpa using hbc, h2.symm⟩

theorem update_copy_ok_inv {db : DB} {cid : Nat} {data : CopyIn} {res : DB × BookCopy}
    (h : update_copy db cid data = Except.ok res) :
    ∃ c, findCopy db cid = Option.some c ∧ res = updateCopyCommit db c cid data := by
  unfold update_copy at h
  split at h
  · cases h
  rename_i c hc
  injection h with h2
  exact ⟨c, hc, h2.symm⟩

theorem delete_copy_ok_inv {db : DB} {cid : Nat} {db' : DB}
    (h : delete_copy db cid = Except.ok db') :
    ∃ c, findCopy db cid = Option.some c ∧ c.status ≠ CopyStatus.borrowed ∧
      db' = deleteCopyCommit db c := by
  unfold delete_copy at h
  split at h
  · cases h
  rename_i c hc
  split at h
  · cases h
  rename_i hst
  injection h with h2
  exact ⟨c, hc, hst, h2.symm⟩

theorem delete_book_ok_inv {db : DB} {bid : Nat} {db' : DB}
    (h : delete_book_api db bid = Except.ok db') :
    ∃ b, findBook db bid = Option.some b ∧
      (db.copies.find? (fun x => x.book_id == bid)).isSome = false ∧
      db' = { db with books := db.books.eraseP (fun x => x.book_id == bid) } := by
  unfold delete_book_api at h
  split at h
  · cases h
  rename_i b hb
  split at h
  · cases h
  rename_i hbc
  injection h with h2
  exact ⟨b, hb, by simpa using hbc, h2.symm⟩

/-! ### Counting lemmas for the two denormalized aggregates -/

theorem countAvail_append {bid : Nat} {l1 l2 : List BookCopy} :
    countAvail bid (l1 ++ l2) = countAvail bid l1 + countAvail bid l2 :=
  List.countP_append _ _ _

theorem countAvail_cons {bid : Nat} {x : BookCopy} {l : List BookCopy} :
    countAvail bid (x :: l) =
      countAvail bid l + (if copyCountsAvail bid x then 1 else 0) :=
  List.countP_cons _ _ _

theorem sumUnpaid_append {rid : Nat} {l1 l2 : List FineRecord} :
    sumUnpaid rid (l1 ++ l2) = sumUnpaid rid l1 + sumUnpaid rid l2 := by
  unfold sumUnpaid
  rw [List.filter_append, List.map_append, List.sum_append]

theorem sumUnpaid_cons {rid : Nat} {x : FineRecord} {l : List FineRecord} :
    sumUnpaid rid (x :: l) =
      (if fineCountsUnpaid rid x then x.amount else 0) + sumUnpaid rid l := by
  unfold sumUnpaid
  rw [List.filter_cons]
  by_cases hx : fineCountsUnpaid rid x
  · simp [hx]
  · simp [hx]

theorem sumUnpaid_nonneg {rid : Nat} {l : List FineRecord}
    (h : ∀ f ∈ l, 0 ≤ f.amount) : 0 ≤ sumUnpaid rid l := by
  induction l with
  | nil => simp [sumUnpaid]
  | cons a t ih =>
    rw [sumUnpaid_cons]
    have ha := h a (List.mem_cons_self a t)
    have ht := ih (fun f hf => h f (List.mem_cons_of_mem a hf))
    have hif : (0 : Money) ≤ (if fineCountsUnpaid rid a then a.amount else 0) := by
      split
      · exact ha
      · exact le_refl 0
    exact add_nonneg hif ht

/-! ### Invariant preservation: frame cases -/

theorem availInv_of {db db' : DB} (hcopies : db'.copies = db.copies)
    (hbooks : ∀ b' ∈ db'.books, ∃ b ∈ db.books,
      b'.book_id = b.book_id ∧ b'.available_copies = b.available_copies)
    (hA : AvailInv db) : AvailInv db' := by
  intro b' hb'
  obtain ⟨b, hb, hid, hav⟩ := hbooks b' hb'
  rw [hav, hid, hA b hb]
  unfold availCount
  rw [hcopies]

theorem fineInv_of {db db' : DB} (hfines : db'.fines = db.fines)
    (hreaders : ∀ r' ∈ db'.readers, ∃ r ∈ db.readers,
      r'.reader_id = r.reader_id ∧ r'.fine_balance = r.fine_balance)
    (hF : FineInv db) : FineInv db' := by
  intro r' hr'
  obtain ⟨r, hr, hid, hbal⟩ := hreaders r' hr'
  rw [hbal, hid, hF r hr]
  unfold unpaidSum
  rw [hfines]

theorem availInv_payCommit {db : DB} {fr : FineRecord} {r : Reader} {m : String}
    {now : Time} (hA : AvailInv db) : AvailInv (payCommit db fr r m now) := by
  refine availInv_of rfl ?_ hA
  intro b' hb'
  exact ⟨b', hb', rfl, rfl⟩

theorem fineInv_createCopyCommit {db : DB} {b : Book} {data : CopyIn}
    (hF : FineInv db) : FineInv (createCopyCommit db b data).1 := by
  refine fineInv_of rfl ?_ hF
  intro r' hr'
  exact ⟨r', hr', rfl, rfl⟩

theorem fineInv_updateCopyCommit {db : DB} {c : BookCopy} {cid : Nat} {data : CopyIn}
    (hF : FineInv db) : FineInv (updateCopyCommit db c cid data).1 := by
  refine fineInv_of rfl ?_ hF
  intro r' hr'
  exact ⟨r', hr', rfl, rfl⟩

theorem fineInv_deleteCopyCommit {db : DB} {c : BookCopy}
    (hF : FineInv db) : FineInv (deleteCopyCommit db c) := by
  refine fineInv_of rfl ?_ hF
  intro r' hr'
  exact ⟨r', hr', rfl, rfl⟩

theorem fineInv_borrowCommit {db : DB} {r : Reader} {cat : ReaderCategory}
    {c : BookCopy} {b : Book} {now : Time}
    (hF : FineInv db) : FineInv (borrowCommit db r cat c b now).1 := by
  have hfines : (borrowCommit db r cat c b now).1.fines = db.fines := rfl
  refine fineInv_of hfines ?_ hF
  intro r' hr'
  have hr2 : r' ∈ updByKey Reader.reader_id r.reader_id
      (fun x => { x with borrowed_count := x.borrowed_count + 1 }) db.readers := hr'
  obtain ⟨x, hx, hxe⟩ := mem_updByKey hr2
  subst hxe
  by_cases hk : (Reader.reader_id x == r.reader_id) = true
  · simp only [hk, if_true]
    exact ⟨x, hx, rfl, rfl⟩
  · simp only [hk]
    simp only [Bool.false_eq_true, if_false]
    exact ⟨x, hx, rfl, rfl⟩

/-! ### Invariant preservation: the counter-adjusting cases -/

theorem countAvail_split {bid : Nat} {l1 l2 : List BookCopy} {c : BookCopy} :
    countAvail bid (l1 ++ c :: l2) =
      countAvail bid l1 + countAvail bid l2 +
        (if copyCountsAvail bid c then 1 else 0) := by
  rw [countAvail_append, countAvail_cons]
  omega

theorem availInv_borrowCommit {db : DB} {r : Reader} {cat : ReaderCategory}
    {c : BookCopy} {b : Book} {now : Time}
    (hN : (db.copies.map BookCopy.copy_id).Nodup)
    (hc : c ∈ db.copies)
    (hcs : c.status = CopyStatus.available)
    (hb : findBook db c.book_id = Option.some b)
    (hA : AvailInv db) : AvailInv (borrowCommit db r cat c b now).1 := by
  obtain ⟨hbmem, hbid⟩ := findByKey_eq_some hb
  obtain ⟨l1, l2, hsp, h1, h2⟩ := split_of_mem_nodup hc hN
  intro b' hb'
  have hb2 : b' ∈ updByKey Book.book_id b.book_id
      (fun x => { x with available_copies := x.available_copies - 1 }) db.books := hb'
  obtain ⟨b0, hb0, hbe⟩ := mem_updByKey hb2
  have hcopies : (borrowCommit db r cat c b now).1.copies
      = updByKey BookCopy.copy_id c.copy_id
          (fun x => { x with status := CopyStatus.borrowed }) db.copies := rfl
  have hnew : ∀ bid, availCount (borrowCommit db r cat c b now).1 bid
      = countAvail bid l1 + countAvail bid l2
        + (if copyCountsAvail bid { c with status := CopyStatus.borrowed } then 1 else 0) := by
    intro bid
    unfold availCount
    rw [hcopies, hsp, updByKey_split_full h1 h2, countAvail_split]
  have hold : ∀ bid, availCount db bid
      = countAvail bid l1 + countAvail bid l2
        + (if copyCountsAvail bid c then 1 else 0) := by
    intro bid
    unfold availCount
    rw [hsp, countAvail_split]
  by_cases hk : (Book.book_id b0 == b.book_id) = true
  · have hb0id : b0.book_id = b.book_id := by simpa using hk
    have hbeq : b' = { b0 with available_copies := b0.available_copies - 1 } := by
      rw [hbe]
      simp [hk]
    have hbid' : b'.book_id = c.book_id := by
      rw [hbeq]
      show b0.book_id = c.book_id
      rw [hb0id, hbid]
    have hpold : copyCountsAvail b'.book_id c = true := by
      unfold copyCountsAvail
      rw [hbid']
      simp [hcs]
    have hpnew : copyCountsAvail b'.book_id { c with status := CopyStatus.borrowed } = false := by
      unfold copyCountsAvail
      simp
    have hg1 : availCount (borrowCommit db r cat c b now).1 b'.book_id
        = countAvail b'.book_id l1 + countAvail b'.book_id l2 := by
      rw [hnew b'.book_id, hpnew]
      simp
    have hg2 : availCount db b'.book_id
        = countAvail b'.book_id l1 + countAvail b'.book_id l2 + 1 := by
      rw [hold b'.book_id, hpold]
      simp
    have hO : b0.available_copies = (availCount db b'.book_id : Int) := by
      have hx := hA b0 hb0
      have hbb : b'.book_id = b0.book_id := by rw [hbeq]
      rw [hbb]
      exact hx
    have hbav : b'.available_copies = b0.available_copies - 1 := by rw [hbeq]
    rw [hbav, hg1]
    rw [hg2] at hO
    omega
  · have hbeq : b' = b0 := by
      rw [hbe]
      simp [hk]
    have hb0id : b0.book_id ≠ b.book_id := by simpa using hk
    have hbid' : b'.book_id ≠ c.book_id := by
      rw [hbeq]
      rw [← hbid]
      exact hb0id
    have hpold : copyCountsAvail b'.book_id c = false := by
      unfold copyCountsAvail
      simp only [decide_eq_false_iff_not]
      intro hcontra
      exact hbid' hcontra.1.symm
    have hpnew : copyCountsAvail b'.book_id { c with status := CopyStatus.borrowed } = false := by
      unfold copyCountsAvail
      simp only [decide_eq_false_iff_not]
      intro hcontra
      exact hbid' hcontra.1.symm
    have hg1 : availCount (borrowCommit db r cat c b now).1 b'.book_id
        = countAvail b'.book_id l1 + countAvail b'.book_id l2 := by
      rw [hnew b'.book_id, hpnew]
      simp
    have hg2 : availCount db b'.book_id
        = countAvail b'.book_id l1 + countAvail b'.book_id l2 := by
      rw [hold b'.book_id, hpold]
      simp
    have hO : b'.available_copies = (availCount db b'.book_id : Int) := by
      rw [hbeq]
      exact hA b0 hb0
    rw [hO, hg1, hg2]

theorem countsAvail_ite_of_book {bid : Nat} {x : BookCopy} (hb : x.book_id = bid) :
    (if copyCountsAvail bid x then 1 else 0 : Nat)
      = (if x.status = CopyStatus.available then 1 else 0) := by
  unfold copyCountsAvail
  by_cases hs : x.status = CopyStatus.available <;> simp [hb, hs]

theorem countsAvail_ite_of_ne {bid : Nat} {x : BookCopy} (hb : x.book_id ≠ bid) :
    (if copyCountsAvail bid x then 1 else 0 : Nat) = 0 := by
  have hfalse : copyCountsAvail bid x = false := by
    unfold copyCountsAvail
    simp only [decide_eq_false_iff_not]
    intro hcontra
    exact hb hcontra.1
  rw [hfalse]
  simp

/-- Updating one copy row (same book, possibly new status) while adjusting the
owning book's counter by the status delta preserves the availability
invariant. -/
theorem availInv_surgery {db db' : DB} (c : BookCopy) (f : BookCopy → BookCopy)
    (hN : (db.copies.map BookCopy.copy_id).Nodup)
    (hc : c ∈ db.copies)
    (hfb : (f c).book_id = c.book_id)
    (hcopies : db'.copies = updByKey BookCopy.copy_id c.copy_id f db.copies)
    (hbooks : db'.books = updByKey Book.book_id c.book_id
        (fun x => { x with available_copies := x.available_copies
            + (if (f c).status = CopyStatus.available then 1 else 0)
            - (if c.status = CopyStatus.available then 1 else 0) }) db.books)
    (hA : AvailInv db) : AvailInv db' := by
  obtain ⟨l1, l2, hsp, h1, h2⟩ := split_of_mem_nodup hc hN
  intro b' hb'
  rw [hbooks] at hb'
  obtain ⟨b0, hb0, hbe⟩ := mem_updByKey hb'
  have hnew : ∀ bid, availCount db' bid
      = countAvail bid l1 + countAvail bid l2
        + (if copyCountsAvail bid (f c) then 1 else 0) := by
    intro bid
    unfold availCount
    rw [hcopies, hsp, updByKey_split_full h1 h2, countAvail_split]
  have hold : ∀ bid, availCount db bid
      = countAvail bid l1 + countAvail bid l2
        + (if copyCountsAvail bid c then 1 else 0) := by
    intro bid
    unfold availCount
    rw [hsp, countAvail_split]
  by_cases hk : (Book.book_id b0 == c.book_id) = true
  · have hb0id : b0.book_id = c.book_id := by simpa using hk
    have hbeq : b' = { b0 with available_copies := b0.available_copies
        + (if (f c).status = CopyStatus.available then 1 else 0)
        - (if c.status = CopyStatus.available then 1 else 0) } := by
      rw [hbe]
      simp [hk]
    have hbb : b'.book_id = c.book_id := by
      rw [hbeq]
      show b0.book_id = c.book_id
      exact hb0id
    have hO : b0.available_copies = (availCount db b'.book_id : Int) := by
      rw [hbb, ← hb0id]
      exact hA b0 hb0
    have hbav : b'.available_copies = b0.available_copies
        + (if (f c).status = CopyStatus.available then 1 else 0)
        - (if c.status = CopyStatus.available then 1 else 0) := by rw [hbeq]
    rw [hbav, hnew b'.book_id,
      countsAvail_ite_of_book (show (f c).book_id = b'.book_id by rw [hfb, hbb])]
    rw [hold b'.book_id,
      countsAvail_ite_of_book (show c.book_id = b'.book_id by rw [hbb])] at hO
    by_cases hs1 : (f c).status = CopyStatus.available <;>
      by_cases hs2 : c.status = CopyStatus.available
    · simp only [hs1, hs2, if_true] at hO ⊢
      simp at hO ⊢
      omega
    · simp only [hs1, hs2, if_true] at hO ⊢
      simp [hs2] at hO ⊢
      omega
    · simp only [hs1, hs2, if_true] at hO ⊢
      simp [hs1] at hO ⊢
      omega
    · simp [hs1, hs2] at hO ⊢
      omega
  · have hbeq : b' = b0 := by
      rw [hbe]
      simp [hk]
    have hb0id : b0.book_id ≠ c.book_id := by simpa using hk
    have hbb : b'.book_id ≠ c.book_id := by
      rw [hbeq]
      exact hb0id
    have hO : b'.available_copies = (availCount db b'.book_id : Int) := by
      rw [hbeq]
      exact hA b0 hb0
    rw [hO, hnew b'.book_id, hold b'.book_id,
      countsAvail_ite_of_ne (show (f c).book_id ≠ b'.book_id by rw [hfb]; exact fun hx => hbb hx.symm),
      countsAvail_ite_of_ne (show c.book_id ≠ b'.book_id from fun hx => hbb hx.symm)]

/-- Replacing one copy row by a row that counts identically for every book,
with the book table untouched, preserves the availability invariant. -/
theorem availInv_replaceNoCount {db db' : DB} (c : BookCopy) (f : BookCopy → BookCopy)
    (hN : (db.copies.map BookCopy.copy_id).Nodup)
    (hc : c ∈ db.copies)
    (hp : ∀ bid, copyCountsAvail bid (f c) = copyCountsAvail bid c)
    (hcopies : db'.copies = updByKey BookCopy.copy_id c.copy_id f db.copies)
    (hbooks : db'.books = db.books)
    (hA : AvailInv db) : AvailInv db' := by
  obtain ⟨l1, l2, hsp, h1, h2⟩ := split_of_mem_nodup hc hN
  intro b' hb'
  rw [hbooks] at hb'
  have hnew : availCount db' b'.book_id
      = countAvail b'.book_id l1 + countAvail b'.book_id l2
        + (if copyCountsAvail b'.book_id c then 1 else 0) := by
    unfold availCount
    rw [hcopies, hsp, updByKey_split_full h1 h2, countAvail_split, hp]
  have hold : availCount db b'.book_id
      = countAvail b'.book_id l1 + countAvail b'.book_id l2
        + (if copyCountsAvail b'.book_id c then 1 else 0) := by
    unfold availCount
    rw [hsp, countAvail_split]
  rw [hA b' hb', hold, hnew]

theorem availInv_returnCommit_safe {db : DB} {br : BorrowRecord} {r : Reader}
    {c : BookCopy} {b : Book} {od : Int} {fine0 : Money} {status0 : BorrowStatus}
    {dmg : Bool} {desc : Option String} {now : Time}
    (hN : (db.copies.map BookCopy.copy_id).Nodup)
    (hcmem : c ∈ db.copies)
    (hcs : c.status = CopyStatus.borrowed)
    (hb : findBook db br.book_id = Option.some b)
    (hcb : c.book_id = br.book_id)
    (hA : AvailInv db) :
    AvailInv (returnCommit db br r c b od fine0 status0 dmg desc now).1 := by
  obtain ⟨hbmem, hbid⟩ := findByKey_eq_some hb
  refine availInv_surgery c (fun x => { x with status := CopyStatus.available })
    hN hcmem rfl ?_ ?_ hA
  · show (if c.status = CopyStatus.borrowed then
        updByKey BookCopy.copy_id c.copy_id
          (fun x => { x with status := CopyStatus.available }) db.copies
      else db.copies) = _
    rw [if_pos hcs]
  · have h0 : (returnCommit db br r c b od fine0 status0 dmg desc now).1.books
        = updByKey Book.book_id b.book_id
            (fun x => { x with available_copies := x.available_copies + 1 }) db.books := rfl
    rw [h0, hbid, ← hcb]
    unfold updByKey
    apply List.map_congr_left
    intro x _
    by_cases hx : (Book.book_id x == c.book_id) = true <;> simp [hx, hcs]

theorem availInv_updateCopyCommit_safe {db : DB} {c : BookCopy} {cid : Nat}
    {data : CopyIn}
    (hN : (db.copies.map BookCopy.copy_id).Nodup)
    (hfind : findCopy db cid = Option.some c)
    (hsafe : data.book_id = c.book_id)
    (hA : AvailInv db) : AvailInv (updateCopyCommit db c cid data).1 := by
  obtain ⟨hcmem, hkey⟩ := findByKey_eq_some hfind
  have hfb : (updateCopyRow c data).book_id = c.book_id := hsafe
  have hcop : (updateCopyCommit db c cid data).1.copies
      = updByKey BookCopy.copy_id c.copy_id (fun _ => updateCopyRow c data) db.copies := by
    have h0 : (updateCopyCommit db c cid data).1.copies
        = updByKey BookCopy.copy_id cid (fun _ => updateCopyRow c data) db.copies := rfl
    rw [h0, ← hkey]
  have hbdef : (updateCopyCommit db c cid data).1.books
      = (match findBook db c.book_id with
         | Option.none => db.books
         | Option.some b =>
           if c.status ≠ (updateCopyRow c data).status then
             updByKey Book.book_id b.book_id
               (fun x => { x with available_copies := x.available_copies
                   + (if (updateCopyRow c data).status = CopyStatus.available then 1 else 0)
                   - (if c.status = CopyStatus.available then 1 else 0) }) db.books
           else db.books) := rfl
  have hbooks_none : findBook db c.book_id = Option.none →
      (updateCopyCommit db c cid data).1.books = db.books := by
    intro hbq
    rw [hbdef, hbq]
  have hbooks_some : ∀ bq, findBook db c.book_id = Option.some bq →
      (updateCopyCommit db c cid data).1.books =
        (if c.status ≠ (updateCopyRow c data).status then
           updByKey Book.book_id bq.book_id
             (fun x => { x with available_copies := x.available_copies
                 + (if (updateCopyRow c data).status = CopyStatus.available then 1 else 0)
                 - (if c.status = CopyStatus.available then 1 else 0) }) db.books
         else db.books) := by
    intro bq hbq
    rw [hbdef, hbq]
  by_cases hst : c.status = (updateCopyRow c data).status
  · refine availInv_replaceNoCount c (fun _ => updateCopyRow c data) hN hcmem ?_ hcop ?_ hA
    · intro bid
      unfold copyCountsAvail
      rw [hfb, ← hst]
    · cases hbk : findBook db c.book_id with
      | none => exact hbooks_none hbk
      | some bq =>
        rw [hbooks_some bq hbk]
        rw [if_neg (show ¬ (c.status ≠ (updateCopyRow c data).status) from
          fun hcon => hcon hst)]
  · cases hbk : findBook db c.book_id with
    | none =>
      refine availInv_surgery c (fun _ => updateCopyRow c data) hN hcmem hfb hcop ?_ hA
      rw [hbooks_none hbk]
      exact (updByKey_eq_self (findByKey_eq_none hbk)).symm
    | some bq =>
      obtain ⟨hbmem, hbid⟩ := findByKey_eq_some hbk
      refine availInv_surgery c (fun _ => updateCopyRow c data) hN hcmem hfb hcop ?_ hA
      rw [hbooks_some bq hbk, if_pos hst, hbid]

theorem availInv_createCopyCommit {db : DB} {b : Book} {data : CopyIn}
    (hb : findBook db data.book_id = Option.some b)
    (hA : AvailInv db) : AvailInv (createCopyCommit db b data).1 := by
  obtain ⟨hbmem, hbid⟩ := findByKey_eq_some hb
  have hcop : (createCopyCommit db b data).1.copies = db.copies ++
      [{ copy_id := db.next_id, book_id := data.book_id, barcode := data.barcode,
         location := data.location, status := data.status.getD CopyStatus.available }] := rfl
  have hbup : (createCopyCommit db b data).1.books = updByKey Book.book_id b.book_id
      (fun x => { x with
          total_copies := x.total_copies + 1
          available_copies := x.available_copies +
            (if data.status.getD CopyStatus.available = CopyStatus.available then 1 else 0) })
      db.books := rfl
  have hcnt : ∀ bid, availCount (createCopyCommit db b data).1 bid
      = availCount db bid + (if copyCountsAvail bid
          { copy_id := db.next_id, book_id := data.book_id, barcode := data.barcode,
            location := data.location,
            status := data.status.getD CopyStatus.available } then 1 else 0) := by
    intro bid
    unfold availCount
    rw [hcop, countAvail_append, countAvail_cons]
    have h0 : countAvail bid ([] : List BookCopy) = 0 := rfl
    rw [h0]
    omega
  intro b' hb'
  rw [hbup] at hb'
  obtain ⟨b0, hb0, hbe⟩ := mem_updByKey hb'
  by_cases hk : (Book.book_id b0 == b.book_id) = true
  · have hb0id : b0.book_id = b.book_id := by simpa using hk
    have hbeq : b' = { b0 with
        total_copies := b0.total_copies + 1
        available_copies := b0.available_copies +
          (if data.status.getD CopyStatus.available = CopyStatus.available then 1 else 0) } := by
      rw [hbe]
      simp [hk]
    have hbb : b'.book_id = data.book_id := by
      rw [hbeq]
      show b0.book_id = data.book_id
      rw [hb0id, hbid]
    have hbav : b'.available_copies = b0.available_copies +
        (if data.status.getD CopyStatus.available = CopyStatus.available then 1 else 0) := by
      rw [hbeq]
    have hO : b0.available_copies = (availCount db b'.book_id : Int) := by
      rw [hbb, ← hbid, ← hb0id]
      exact hA b0 hb0
    rw [hbav, hcnt b'.book_id, countsAvail_ite_of_book hbb.symm]
    by_cases hs : data.status.getD CopyStatus.available = CopyStatus.available
    · simp only [hs, if_true] at *
      simp at *
      omega
    · simp only [hs, if_false] at *
      simp [hs] at *
      omega
  · have hbeq : b' = b0 := by
      rw [hbe]
      simp [hk]
    have hb0id : b0.book_id ≠ b.book_id := by simpa using hk
    have hbb : b'.book_id ≠ data.book_id := by
      rw [hbeq, ← hbid]
      exact hb0id
    have hO : b'.available_copies = (availCount db b'.book_id : Int) := by
      rw [hbeq]
      exact hA b0 hb0
    rw [hO, hcnt b'.book_id,
      countsAvail_ite_of_ne (show (data.book_id : Nat) ≠ b'.book_id from fun hx => hbb hx.symm)]
    simp

theorem availInv_deleteCopyCommit {db : DB} {c : BookCopy}
    (hN : (db.copies.map BookCopy.copy_id).Nodup)
    (hcmem : c ∈ db.copies)
    (hA : AvailInv db) : AvailInv (deleteCopyCommit db c) := by
  obtain ⟨l1, l2, hsp, h1, h2⟩ := split_of_mem_nodup hcmem hN
  have hcop : (deleteCopyCommit db c).copies = l1 ++ l2 := by
    have h0 : (deleteCopyCommit db c).copies
        = db.copies.eraseP (fun x => x.copy_id == c.copy_id) := rfl
    rw [h0, hsp]
    exact eraseP_key_split h1
  have hbdef : (deleteCopyCommit db c).books = (match findBook db c.book_id with
      | Option.none => db.books
      | Option.some b => updByKey Book.book_id b.book_id
          (fun x => { x with
              total_copies := x.total_copies - 1
              available_copies := x.available_copies -
                (if c.status = CopyStatus.available then 1 else 0) }) db.books) := rfl
  have hnew : ∀ bid, availCount (deleteCopyCommit db c) bid
      = countAvail bid l1 + countAvail bid l2 := by
    intro bid
    unfold availCount
    rw [hcop, countAvail_append]
  have hold : ∀ bid, availCount db bid
      = countAvail bid l1 + countAvail bid l2
        + (if copyCountsAvail bid c then 1 else 0) := by
    intro bid
    unfold availCount
    rw [hsp, countAvail_split]
  cases hbk : findBook db c.book_id with
  | none =>
    intro b' hb'
    have hbooks : (deleteCopyCommit db c).books = db.books := by rw [hbdef, hbk]
    rw [hbooks] at hb'
    have hbne : b'.book_id ≠ c.book_id := findByKey_eq_none hbk b' hb'
    rw [hA b' hb', hnew b'.book_id, hold b'.book_id,
      countsAvail_ite_of_ne (show c.book_id ≠ b'.book_id from fun hx => hbne hx.symm)]
    simp
  | some b =>
    obtain ⟨hbmem, hbid⟩ := findByKey_eq_some hbk
    intro b' hb'
    have hbooks : (deleteCopyCommit db c).books = updByKey Book.book_id b.book_id
        (fun x => { x with
            total_copies := x.total_copies - 1
            available_copies := x.available_copies -
              (if c.status = CopyStatus.available then 1 else 0) }) db.books := by
      rw [hbdef, hbk]
    rw [hbooks] at hb'
    obtain ⟨b0, hb0, hbe⟩ := mem_updByKey hb'
    by_cases hk : (Book.book_id b0 == b.book_id) = true
    · have hb0id : b0.book_id = b.book_id := by simpa using hk
      have hbeq : b' = { b0 with
          total_copies := b0.total_copies - 1
          available_copies := b0.available_copies -
            (if c.status = CopyStatus.available then 1 else 0) } := by
        rw [hbe]
        simp [hk]
      have hbb : b'.book_id = c.book_id := by
        rw [hbeq]
        show b0.book_id = c.book_id
        rw [hb0id, hbid]
      have hbav : b'.available_copies = b0.available_copies -
          (if c.status = CopyStatus.available then 1 else 0) := by rw [hbeq]
      have hO : b0.available_copies = (availCount db b'.book_id : Int) := by
        rw [hbb, ← hbid, ← hb0id]
        exact hA b0 hb0
      rw [hold b'.book_id, countsAvail_ite_of_book (show c.book_id = b'.book_id from hbb.symm)] at hO
      rw [hbav, hnew b'.book_id]
      by_cases hs : c.status = CopyStatus.available
      · simp only [hs, if_true] at *
        simp at *
        omega
      · simp only [hs, if_false] at *
        simp [hs] at *
        omega
    · have hbeq : b' = b0 := by
        rw [hbe]
        simp [hk]
      have hb0id : b0.book_id ≠ b.book_id := by simpa using hk
      have hbb : b'.book_id ≠ c.book_id := by
        rw [hbeq, ← hbid]
        exact hb0id
      have hO : b'.available_copies = (availCount db b'.book_id : Int) := by
        rw [hbeq]
        exact hA b0 hb0
      rw [hO, hnew b'.book_id, hold b'.book_id,
        countsAvail_ite_of_ne (show c.book_id ≠ b'.book_id from fun hx => hbb hx.symm)]
      simp

theorem fineInv_returnCommit {db : DB} {br : BorrowRecord} {r : Reader}
    {c : BookCopy} {b : Book} {od : Int} {fine0 : Money} {status0 : BorrowStatus}
    {dmg : Bool} {desc : Option String} {now : Time}
    (hF : FineInv db) :
    FineInv (returnCommit db br r c b od fine0 status0 dmg desc now).1 := by
  by_cases hfpos : (if dmg then fine0 + damageFineAmount else fine0) > 0
  · intro r' hr'
    have hr2 : r' ∈ updByKey Reader.reader_id r.reader_id
        (fun x =>
          if (if dmg then fine0 + damageFineAmount else fine0) > 0 then
            { x with borrowed_count := max 0 (x.borrowed_count - 1)
                     fine_balance := x.fine_balance +
                       (if dmg then fine0 + damageFineAmount else fine0)
                     fine_total_history := x.fine_total_history +
                       (if dmg then fine0 + damageFineAmount else fine0) }
          else { x with borrowed_count := max 0 (x.borrowed_count - 1) }) db.readers := hr'
    obtain ⟨x, hx, hxe⟩ := mem_updByKey hr2
    have hfines : (returnCommit db br r c b od fine0 status0 dmg desc now).1.fines
        = db.fines ++ [{ fine_id := db.next_id
                         reader_id := r.reader_id
                         borrow_id := Option.some br.borrow_id
                         reason := if od > 0 then FineReason.overdue else FineReason.damage
                         amount := if dmg then fine0 + damageFineAmount else fine0
                         status := FineRecStatus.unpaid
                         paid_at := Option.none }] := by
      have h0 : (returnCommit db br r c b od fine0 status0 dmg desc now).1.fines
          = (if (if dmg then fine0 + damageFineAmount else fine0) > 0 then
               db.fines ++ [{ fine_id := db.next_id
                              reader_id := r.reader_id
                              borrow_id := Option.some br.borrow_id
                              reason := if od > 0 then FineReason.overdue
                                        else FineReason.damage
                              amount := if dmg then fine0 + damageFineAmount else fine0
                              status := FineRecStatus.unpaid
                              paid_at := Option.none }]
             else db.fines) := rfl
      rw [h0, if_pos hfpos]
    have hsum : ∀ rid, unpaidSum (returnCommit db br r c b od fine0 status0 dmg desc now).1 rid
        = unpaidSum db rid +
          (if r.reader_id = rid then (if dmg then fine0 + damageFineAmount else fine0) else 0) := by
      intro rid
      unfold unpaidSum
      rw [hfines, sumUnpaid_append, sumUnpaid_cons]
      by_cases hrr : r.reader_id = rid
      · simp [fineCountsUnpaid, hrr, sumUnpaid]
      · simp [fineCountsUnpaid, hrr, sumUnpaid]
    by_cases hk : (Reader.reader_id x == r.reader_id) = true
    · have hkid : x.reader_id = r.reader_id := by simpa using hk
      have hre : r' = { x with borrowed_count := max 0 (x.borrowed_count - 1)
                               fine_balance := x.fine_balance +
                                 (if dmg then fine0 + damageFineAmount else fine0)
                               fine_total_history := x.fine_total_history +
                                 (if dmg then fine0 + damageFineAmount else fine0) } := by
        rw [hxe]
        simp only [hk, if_true]
        rw [if_pos hfpos]
      have hid : r'.reader_id = x.reader_id := by rw [hre]
      have hbal : r'.fine_balance = x.fine_balance +
          (if dmg then fine0 + damageFineAmount else fine0) := by rw [hre]
      rw [hbal, hid, hsum x.reader_id, hF x hx, if_pos hkid.symm]
    · have hkid : x.reader_id ≠ r.reader_id := by simpa using hk
      have hre : r' = x := by
        rw [hxe]
        simp [hk]
      rw [hre, hsum x.reader_id, hF x hx, if_neg (fun hx2 => hkid hx2.symm)]
      simp
  · have hfines : (returnCommit db br r c b od fine0 status0 dmg desc now).1.fines
        = db.fines := by
      have h0 : (returnCommit db br r c b od fine0 status0 dmg desc now).1.fines
          = (if (if dmg then fine0 + damageFineAmount else fine0) > 0 then
               db.fines ++ [{ fine_id := db.next_id
                              reader_id := r.reader_id
                              borrow_id := Option.some br.borrow_id
                              reason := if od > 0 then FineReason.overdue
                                        else FineReason.damage
                              amount := if dmg then fine0 + damageFineAmount else fine0
                              status := FineRecStatus.unpaid
                              paid_at := Option.none }]
             else db.fines) := rfl
      rw [h0, if_neg hfpos]
    refine fineInv_of hfines ?_ hF
    intro r' hr'
    have hr2 : r' ∈ updByKey Reader.reader_id r.reader_id
        (fun x =>
          if (if dmg then fine0 + damageFineAmount else fine0) > 0 then
            { x with borrowed_count := max 0 (x.borrowed_count - 1)
                     fine_balance := x.fine_balance +
                       (if dmg then fine0 + damageFineAmount else fine0)
                     fine_total_history := x.fine_total_history +
                       (if dmg then fine0 + damageFineAmount else fine0) }
          else { x with borrowed_count := max 0 (x.borrowed_count - 1) }) db.readers := hr'
    obtain ⟨x, hx, hxe⟩ := mem_updByKey hr2
    by_cases hk : (Reader.reader_id x == r.reader_id) = true
    · have hre : r' = { x with borrowed_count := max 0 (x.borrowed_count - 1) } := by
        rw [hxe]
        simp only [hk, if_true]
        rw [if_neg hfpos]
      refine ⟨x, hx, ?_, ?_⟩ <;> rw [hre]
    · have hre : r' = x := by
        rw [hxe]
        simp [hk]
      exact ⟨x, hx, by rw [hre], by rw [hre]⟩

theorem fineInv_payCommit {db : DB} {fr : FineRecord} {r : Reader} {m : String}
    {now : Time}
    (hNf : (db.fines.map FineRecord.fine_id).Nodup)
    (hamts : ∀ f ∈ db.fines, 0 ≤ f.amount)
    (hfrmem : fr ∈ db.fines)
    (hfrst : fr.status = FineRecStatus.unpaid)
    (hrid : r.reader_id = fr.reader_id)
    (hF : FineInv db) : FineInv (payCommit db fr r m now) := by
  obtain ⟨l1, l2, hsp, h1, h2⟩ := split_of_mem_nodup hfrmem hNf
  have hfines : (payCommit db fr r m now).fines
      = l1 ++ { fr with status := FineRecStatus.paid, paid_at := Option.some now } :: l2 := by
    have h0 : (payCommit db fr r m now).fines
        = updByKey FineRecord.fine_id fr.fine_id
            (fun x => { x with status := FineRecStatus.paid, paid_at := Option.some now })
            db.fines := rfl
    rw [h0, hsp]
    exact updByKey_split_full h1 h2
  have hsum_new : ∀ rid, unpaidSum (payCommit db fr r m now) rid
      = sumUnpaid rid l1 + sumUnpaid rid l2 := by
    intro rid
    unfold unpaidSum
    rw [hfines, sumUnpaid_append, sumUnpaid_cons]
    have hfalse : fineCountsUnpaid rid
        { fr with status := FineRecStatus.paid, paid_at := Option.some now } = false := by
      unfold fineCountsUnpaid
      simp
    rw [hfalse]
    simp
  have hsum_old : ∀ rid, unpaidSum db rid
      = sumUnpaid rid l1 + sumUnpaid rid l2
        + (if fr.reader_id = rid then fr.amount else 0) := by
    intro rid
    unfold unpaidSum
    rw [hsp, sumUnpaid_append, sumUnpaid_cons]
    by_cases hrr : fr.reader_id = rid
    · rw [show fineCountsUnpaid rid fr = true from by
        unfold fineCountsUnpaid
        simp [hrr, hfrst]]
      rw [if_pos hrr]
      simp only [if_true]
      ring
    · rw [show fineCountsUnpaid rid fr = false from by
        unfold fineCountsUnpaid
        simp [hrr]]
      rw [if_neg hrr]
      simp
  have hl1 : 0 ≤ sumUnpaid r.reader_id l1 := by
    refine sumUnpaid_nonneg ?_
    intro f hf
    exact hamts f (by rw [hsp]; exact List.mem_append_left _ hf)
  have hl2 : 0 ≤ sumUnpaid r.reader_id l2 := by
    refine sumUnpaid_nonneg ?_
    intro f hf
    refine hamts f ?_
    rw [hsp]
    exact List.mem_append_right _ (List.mem_cons_of_mem _ hf)
  intro r' hr'
  have hr2 : r' ∈ updByKey Reader.reader_id r.reader_id
      (fun x => { x with fine_balance := max 0 (x.fine_balance - fr.amount) })
      db.readers := hr'
  obtain ⟨x, hx, hxe⟩ := mem_updByKey hr2
  by_cases hk : (Reader.reader_id x == r.reader_id) = true
  · have hkid : x.reader_id = r.reader_id := by simpa using hk
    have hre : r' = { x with fine_balance := max 0 (x.fine_balance - fr.amount) } := by
      rw [hxe]
      simp [hk]
    have hid : r'.reader_id = x.reader_id := by rw [hre]
    have hbal : r'.fine_balance = max 0 (x.fine_balance - fr.amount) := by rw [hre]
    have hxbal : x.fine_balance = sumUnpaid x.reader_id l1 + sumUnpaid x.reader_id l2
        + fr.amount := by
      rw [hF x hx, hsum_old x.reader_id, if_pos (by rw [hkid, hrid])]
    have hgoal : x.fine_balance - fr.amount
        = sumUnpaid x.reader_id l1 + sumUnpaid x.reader_id l2 := by
      rw [hxbal]
      ring
    have hl1x : 0 ≤ sumUnpaid x.reader_id l1 := by
      rw [hkid]
      exact hl1
    have hl2x : 0 ≤ sumUnpaid x.reader_id l2 := by
      rw [hkid]
      exact hl2
    rw [hbal, hid, hsum_new x.reader_id, hgoal]
    exact max_eq_right (add_nonneg hl1x hl2x)
  · have hkid : x.reader_id ≠ r.reader_id := by simpa using hk
    have hre : r' = x := by
      rw [hxe]
      simp [hk]
    have hne : fr.reader_id ≠ x.reader_id := by
      rw [← hrid]
      exact fun hcon => hkid hcon.symm
    rw [hre, hsum_new x.reader_id, hF x hx, hsum_old x.reader_id, if_neg hne]
    simp

/-! ### Well-formedness preservation -/

theorem map_key_bound {α : Type} {key : α → Nat} {l l' : List α} {n n' : Nat}
    (h : l'.map key = l.map key) (hmono : n ≤ n') (hB : ∀ x ∈ l, key x < n) :
    ∀ y ∈ l', key y < n' := by
  intro y hy
  have hmem : key y ∈ l'.map key := List.mem_map_of_mem key hy
  rw [h] at hmem
  obtain ⟨x, hx, hxy⟩ := List.mem_map.mp hmem
  rw [← hxy]
  exact lt_of_lt_of_le (hB x hx) hmono

theorem nodup_append_fresh {α : Type} {key : α → Nat} {l : List α} {x : α} {n : Nat}
    (hB : ∀ y ∈ l, key y < n) (hx : key x = n) (hN : (l.map key).Nodup) :
    ((l ++ [x]).map key).Nodup := by
  rw [List.map_append, List.nodup_append]
  refine ⟨hN, by simp, ?_⟩
  intro a ha hb
  simp only [List.map_cons, List.map_nil, List.mem_singleton] at hb
  obtain ⟨y, hy, hky⟩ := List.mem_map.mp ha
  rw [hb, hx] at hky
  exact absurd hky (Nat.ne_of_lt (hB y hy))

theorem bound_append {α : Type} {key : α → Nat} {l : List α} {x : α} {n : Nat}
    (hB : ∀ y ∈ l, key y < n) (hx : key x = n) :
    ∀ y ∈ l ++ [x], key y < n + 1 := by
  intro y hy
  rcases List.mem_append.mp hy with hy1 | hy2
  · exact lt_of_lt_of_le (hB y hy1) (Nat.le_succ n)
  · simp only [List.mem_singleton] at hy2
    rw [hy2, hx]
    exact Nat.lt_succ_self n

theorem wf_borrowCommit {db : DB} {r : Reader} {cat : ReaderCategory}
    {c : BookCopy} {b : Book} {now : Time}
    (hW : WF db) : WF (borrowCommit db r cat c b now).1 := by
  obtain ⟨hW1, hW2, hW3, hW4, hW5⟩ := hW
  have hcids : (borrowCommit db r cat c b now).1.copies.map BookCopy.copy_id
      = db.copies.map BookCopy.copy_id := by
    have h0 : (borrowCommit db r cat c b now).1.copies
        = updByKey BookCopy.copy_id c.copy_id
            (fun x => { x with status := CopyStatus.borrowed }) db.copies := rfl
    rw [h0]
    exact updByKey_map_key (fun x hx => hx)
  have hfeq : (borrowCommit db r cat c b now).1.fines = db.fines := rfl
  have hnext : (borrowCommit db r cat c b now).1.next_id = db.next_id + 1 := rfl
  refine ⟨by rw [hcids]; exact hW1, by rw [hfeq]; exact hW2, ?_, ?_, ?_⟩
  · rw [hnext]
    exact map_key_bound hcids (Nat.le_succ _) hW3
  · rw [hnext]
    intro f hf
    rw [hfeq] at hf
    exact lt_of_lt_of_le (hW4 f hf) (Nat.le_succ _)
  · intro f hf
    rw [hfeq] at hf
    exact hW5 f hf

theorem wf_returnCommit {db : DB} {br : BorrowRecord} {r : Reader}
    {c : BookCopy} {b : Book} {od : Int} {fine0 : Money} {status0 : BorrowStatus}
    {dmg : Bool} {desc : Option String} {now : Time}
    (hW : WF db) : WF (returnCommit db br r c b od fine0 status0 dmg desc now).1 := by
  obtain ⟨hW1, hW2, hW3, hW4, hW5⟩ := hW
  have hcids : (returnCommit db br r c b od fine0 status0 dmg desc now).1.copies.map
      BookCopy.copy_id = db.copies.map BookCopy.copy_id := by
    have h0 : (returnCommit db br r c b od fine0 status0 dmg desc now).1.copies
        = (if c.status = CopyStatus.borrowed then
             updByKey BookCopy.copy_id c.copy_id
               (fun x => { x with status := CopyStatus.available }) db.copies
           else db.copies) := rfl
    rw [h0]
    by_cases hs : c.status = CopyStatus.borrowed
    · rw [if_pos hs]
      exact updByKey_map_key (fun x hx => hx)
    · rw [if_neg hs]
  have hfr : (returnCommit db br r c b od fine0 status0 dmg desc now).1.fines
      = (if (if dmg then fine0 + damageFineAmount else fine0) > 0 then
           db.fines ++ [{ fine_id := db.next_id
                          reader_id := r.reader_id
                          borrow_id := Option.some br.borrow_id
                          reason := if od > 0 then FineReason.overdue else FineReason.damage
                          amount := if dmg then fine0 + damageFineAmount else fine0
                          status := FineRecStatus.unpaid
                          paid_at := Option.none }]
         else db.fines) := rfl
  have hnx : (returnCommit db br r c b od fine0 status0 dmg desc now).1.next_id
      = (if (if dmg then fine0 + damageFineAmount else fine0) > 0 then
           db.next_id + 1 else db.next_id) := rfl
  by_cases hfp : (if dmg then fine0 + damageFineAmount else fine0) > 0
  · refine ⟨by rw [hcids]; exact hW1, ?_, ?_, ?_, ?_⟩
    · rw [hfr, if_pos hfp]
      exact nodup_append_fresh hW4 rfl hW2
    · rw [hnx, if_pos hfp]
      exact map_key_bound hcids (Nat.le_succ _) hW3
    · rw [hfr, hnx, if_pos hfp, if_pos hfp]
      exact bound_append hW4 rfl
    · rw [hfr, if_pos hfp]
      intro f hf
      rcases List.mem_append.mp hf with hf1 | hf2
      · exact hW5 f hf1
      · simp only [List.mem_singleton] at hf2
        rw [hf2]
        exact le_of_lt hfp
  · refine ⟨by rw [hcids]; exact hW1, ?_, ?_, ?_, ?_⟩
    · rw [hfr, if_neg hfp]
      exact hW2
    · rw [hnx, if_neg hfp]
      exact map_key_bound hcids (le_refl _) hW3
    · rw [hfr, hnx, if_neg hfp, if_neg hfp]
      exact hW4
    · rw [hfr, if_neg hfp]
      exact hW5

theorem wf_payCommit {db : DB} {fr : FineRecord} {r : Reader} {m : String}
    {now : Time} (hW : WF db) : WF (payCommit db fr r m now) := by
  obtain ⟨hW1, hW2, hW3, hW4, hW5⟩ := hW
  have hceq : (payCommit db fr r m now).copies = db.copies := rfl
  have hfids : (payCommit db fr r m now).fines.map FineRecord.fine_id
      = db.fines.map FineRecord.fine_id := by
    have h0 : (payCommit db fr r m now).fines
        = updByKey FineRecord.fine_id fr.fine_id
            (fun x => { x with status := FineRecStatus.paid, paid_at := Option.some now })
            db.fines := rfl
    rw [h0]
    exact updByKey_map_key (fun x hx => hx)
  have hnext : (payCommit db fr r m now).next_id = db.next_id + 1 := rfl
  refine ⟨by rw [hceq]; exact hW1, by rw [hfids]; exact hW2, ?_, ?_, ?_⟩
  · rw [hceq, hnext]
    intro x hx
    exact lt_of_lt_of_le (hW3 x hx) (Nat.le_succ _)
  · rw [hnext]
    exact map_key_bound hfids (Nat.le_succ _) hW4
  · intro f hf
    have h0 : (payCommit db fr r m now).fines
        = updByKey FineRecord.fine_id fr.fine_id
            (fun x => { x with status := FineRecStatus.paid, paid_at := Option.some now })
            db.fines := rfl
    rw [h0] at hf
    obtain ⟨x, hx, hxe⟩ := mem_updByKey hf
    have : f.amount = x.amount := by
      rw [hxe]
      by_cases hk : (FineRecord.fine_id x == fr.fine_id) = true <;> simp [hk]
    rw [this]
    exact hW5 x hx

theorem wf_createCopyCommit {db : DB} {b : Book} {data : CopyIn}
    (hW : WF db) : WF (createCopyCommit db b data).1 := by
  obtain ⟨hW1, hW2, hW3, hW4, hW5⟩ := hW
  have hcop : (createCopyCommit db b data).1.copies = db.copies ++
      [{ copy_id := db.next_id, book_id := data.book_id, barcode := data.barcode,
         location := data.location, status := data.status.getD CopyStatus.available }] := rfl
  have hfeq : (createCopyCommit db b data).1.fines = db.fines := rfl
  have hnext : (createCopyCommit db b data).1.next_id = db.next_id + 1 := rfl
  refine ⟨?_, by rw [hfeq]; exact hW2, ?_, ?_, ?_⟩
  · rw [hcop]
    exact nodup_append_fresh hW3 rfl hW1
  · rw [hcop, hnext]
    exact bound_append hW3 rfl
  · rw [hfeq, hnext]
    intro f hf
    exact lt_of_lt_of_le (hW4 f hf) (Nat.le_succ _)
  · rw [hfeq]
    exact hW5

theorem wf_updateCopyCommit {db : DB} {c : BookCopy} {cid : Nat} {data : CopyIn}
    (hkey : c.copy_id = cid)
    (hW : WF db) : WF (updateCopyCommit db c cid data).1 := by
  obtain ⟨hW1, hW2, hW3, hW4, hW5⟩ := hW
  have hcids : (updateCopyCommit db c cid data).1.copies.map BookCopy.copy_id
      = db.copies.map BookCopy.copy_id := by
    have h0 : (updateCopyCommit db c cid data).1.copies
        = updByKey BookCopy.copy_id cid (fun _ => updateCopyRow c data) db.copies := rfl
    rw [h0]
    refine updByKey_map_key ?_
    intro x hx
    show c.copy_id = cid
    exact hkey
  have hfeq : (updateCopyCommit db c cid data).1.fines = db.fines := rfl
  have hnext : (updateCopyCommit db c cid data).1.next_id = db.next_id := rfl
  refine ⟨by rw [hcids]; exact hW1, by rw [hfeq]; exact hW2, ?_, ?_, ?_⟩
  · rw [hnext]
    exact map_key_bound hcids (le_refl _) hW3
  · rw [hfeq, hnext]
    exact hW4
  · rw [hfeq]
    exact hW5

theorem wf_deleteCopyCommit {db : DB} {c : BookCopy}
    (hW : WF db) : WF (deleteCopyCommit db c) := by
  obtain ⟨hW1, hW2, hW3, hW4, hW5⟩ := hW
  have hsub : (deleteCopyCommit db c).copies.Sublist db.copies := by
    have h0 : (deleteCopyCommit db c).copies
        = db.copies.eraseP (fun x => x.copy_id == c.copy_id) := rfl
    rw [h0]
    exact List.eraseP_sublist db.copies
  have hfeq : (deleteCopyCommit db c).fines = db.fines := rfl
  have hnext : (deleteCopyCommit db c).next_id = db.next_id := rfl
  refine ⟨?_, by rw [hfeq]; exact hW2, ?_, ?_, ?_⟩
  · exact List.Nodup.sublist (List.Sublist.map BookCopy.copy_id hsub) hW1
  · rw [hnext]
    intro x hx
    exact hW3 x (hsub.subset hx)
  · rw [hfeq, hnext]
    exact hW4
  · rw [hfeq]
    exact hW5

/-! ### Per-request preservation -/

theorem wf_applyOp {db : DB} (op : Op) (hW : WF db) : WF (applyOp db op) := by
  unfold applyOp
  cases op with
  | borrowOp u d cid n =>
    cases hb : borrow db u d cid n with
    | error e =>
      simp only [runOp, hb, Except.map]
      exact hW
    | ok res =>
      simp only [runOp, hb, Except.map]
      obtain ⟨rid, r, cat, c, b, _, _, _, _, _, _, _, _, _, _, hres⟩ := borrow_ok_inv hb
      rw [hres]
      exact wf_borrowCommit hW
  | returnOp u bid dmg desc n =>
    cases hb : return_book db u bid dmg desc n with
    | error e =>
      simp only [runOp, hb, Except.map]
      exact hW
    | ok res =>
      simp only [runOp, hb, Except.map]
      obtain ⟨br, r, c, b, f0, s0, _, _, _, _, _, _, _, hres⟩ := return_book_ok_inv hb
      rw [hres]
      exact wf_returnCommit hW
  | payOp u fid m n =>
    cases hb : pay_fine db u fid m n with
    | error e =>
      simp only [runOp, hb]
      exact hW
    | ok db2 =>
      simp only [runOp, hb]
      obtain ⟨fr, r, _, _, _, _, hres⟩ := pay_fine_ok_inv hb
      rw [hres]
      exact wf_payCommit hW
  | createCopyOp data =>
    cases hb : create_copy db data with
    | error e =>
      simp only [runOp, hb, Except.map]
      exact hW
    | ok res =>
      simp only [runOp, hb, Except.map]
      obtain ⟨b, _, _, hres⟩ := create_copy_ok_inv hb
      rw [hres]
      exact wf_createCopyCommit hW
  | updateCopyOp cid data =>
    cases hb : update_copy db cid data with
    | error e =>
      simp only [runOp, hb, Except.map]
      exact hW
    | ok res =>
      simp only [runOp, hb, Except.map]
      obtain ⟨c, hc, hres⟩ := update_copy_ok_inv hb
      rw [hres]
      exact wf_updateCopyCommit (findByKey_eq_some hc).2 hW
  | deleteCopyOp cid =>
    cases hb : delete_copy db cid with
    | error e =>
      simp only [runOp, hb]
      exact hW
    | ok db2 =>
      simp only [runOp, hb]
      obtain ⟨c, _, _, hres⟩ := delete_copy_ok_inv hb
      rw [hres]
      exact wf_deleteCopyCommit hW

theorem fineInv_applyOp {db : DB} (op : Op) (hW : WF db) (hF : FineInv db) :
    FineInv (applyOp db op) := by
  unfold applyOp
  cases op with
  | borrowOp u d cid n =>
    cases hb : borrow db u d cid n with
    | error e =>
      simp only [runOp, hb, Except.map]
      exact hF
    | ok res =>
      simp only [runOp, hb, Except.map]
      obtain ⟨rid, r, cat, c, b, _, _, _, _, _, _, _, _, _, _, hres⟩ := borrow_ok_inv hb
      rw [hres]
      exact fineInv_borrowCommit hF
  | returnOp u bid dmg desc n =>
    cases hb : return_book db u bid dmg desc n with
    | error e =>
      simp only [runOp, hb, Except.map]
      exact hF
    | ok res =>
      simp only [runOp, hb, Except.map]
      obtain ⟨br, r, c, b, f0, s0, _, _, _, _, _, _, _, hres⟩ := return_book_ok_inv hb
      rw [hres]
      exact fineInv_returnCommit hF
  | payOp u fid m n =>
    cases hb : pay_fine db u fid m n with
    | error e =>
      simp only [runOp, hb]
      exact hF
    | ok db2 =>
      simp only [runOp, hb]
      obtain ⟨fr, r, hfr, hst, _, hr, hres⟩ := pay_fine_ok_inv hb
      rw [hres]
      obtain ⟨hfrmem, _⟩ := findByKey_eq_some hfr
      obtain ⟨_, hrid⟩ := findByKey_eq_some hr
      obtain ⟨_, hW2, _, _, hW5⟩ := hW
      exact fineInv_payCommit hW2 hW5 hfrmem hst hrid hF
  | createCopyOp data =>
    cases hb : create_copy db data with
    | error e =>
      simp only [runOp, hb, Except.map]
      exact hF
    | ok res =>
      simp only [runOp, hb, Except.map]
      obtain ⟨b, _, _, hres⟩ := create_copy_ok_inv hb
      rw [hres]
      exact fineInv_createCopyCommit hF
  | updateCopyOp cid data =>
    cases hb : update_copy db cid data with
    | error e =>
      simp only [runOp, hb, Except.map]
      exact hF
    | ok res =>
      simp only [runOp, hb, Except.map]
      obtain ⟨c, hc, hres⟩ := update_copy_ok_inv hb
      rw [hres]
      exact fineInv_updateCopyCommit hF
  | deleteCopyOp cid =>
    cases hb : delete_copy db cid with
    | error e =>
      simp only [runOp, hb]
      exact hF
    | ok db2 =>
      simp only [runOp, hb]
      obtain ⟨c, _, _, hres⟩ := delete_copy_ok_inv hb
      rw [hres]
      exact fineInv_deleteCopyCommit hF

theorem availInv_applyOp {db : DB} (op : Op) (hW : WF db) (hA : AvailInv db)
    (hs : safeOp db op = true) : AvailInv (applyOp db op) := by
  unfold applyOp
  cases op with
  | borrowOp u d cid n =>
    cases hb : borrow db u d cid n with
    | error e =>
      simp only [runOp, hb, Except.map]
      exact hA
    | ok res =>
      simp only [runOp, hb, Except.map]
      obtain ⟨rid, r, cat, c, b, _, _, _, _, _, _, hc, hcs, hbf, _, hres⟩ :=
        borrow_ok_inv hb
      rw [hres]
      exact availInv_borrowCommit hW.1 (findByKey_eq_some hc).1 hcs hbf hA
  | returnOp u bid dmg desc n =>
    cases hb : return_book db u bid dmg desc n with
    | error e =>
      simp only [runOp, hb, Except.map]
      exact hA
    | ok res =>
      simp only [runOp, hb, Except.map]
      obtain ⟨br, r, c, b, f0, s0, hbr, hbst, _, _, hc, hbf, _, hres⟩ :=
        return_book_ok_inv hb
      rw [hres]
      simp only [safeOp, hbr] at hs
      rw [if_neg (show ¬ (br.status ≠ BorrowStatus.borrowed) from
        fun hcon => hcon hbst)] at hs
      rw [hc] at hs
      rw [decide_eq_true_iff] at hs
      exact availInv_returnCommit_safe hW.1 (findByKey_eq_some hc).1 hs.1 hbf hs.2 hA
  | payOp u fid m n =>
    cases hb : pay_fine db u fid m n with
    | error e =>
      simp only [runOp, hb]
      exact hA
    | ok db2 =>
      simp only [runOp, hb]
      obtain ⟨fr, r, _, _, _, _, hres⟩ := pay_fine_ok_inv hb
      rw [hres]
      exact availInv_payCommit hA
  | createCopyOp data =>
    cases hb : create_copy db data with
    | error e =>
      simp only [runOp, hb, Except.map]
      exact hA
    | ok res =>
      simp only [runOp, hb, Except.map]
      obtain ⟨b, hbf, _, hres⟩ := create_copy_ok_inv hb
      rw [hres]
      exact availInv_createCopyCommit hbf hA
  | updateCopyOp cid data =>
    cases hb : update_copy db cid data with
    | error e =>
      simp only [runOp, hb, Except.map]
      exact hA
    | ok res =>
      simp only [runOp, hb, Except.map]
      obtain ⟨c, hc, hres⟩ := update_copy_ok_inv hb
      rw [hres]
      simp only [safeOp, hc] at hs
      rw [decide_eq_true_iff] at hs
      exact availInv_updateCopyCommit_safe hW.1 hc hs hA
  | deleteCopyOp cid =>
    cases hb : delete_copy db cid with
    | error e =>
      simp only [runOp, hb]
      exact hA
    | ok db2 =>
      simp only [runOp, hb]
      obtain ⟨c, hc, _, hres⟩ := delete_copy_ok_inv hb
      rw [hres]
      exact availInv_deleteCopyCommit hW.1 (findByKey_eq_some hc).1 hA

theorem wf_runOps {db : DB} (ops : List Op) (hW : WF db) : WF (runOps db ops) := by
  induction ops generalizing db with
  | nil => exact hW
  | cons op ops ih =>
    have h0 : runOps db (op :: ops) = runOps (applyOp db op) ops := rfl
    rw [h0]
    exact ih (wf_applyOp op hW)

theorem fineInv_runOps {db : DB} (ops : List Op) (hW : WF db) (hF : FineInv db) :
    FineInv (runOps db ops) := by
  induction ops generalizing db with
  | nil => exact hF
  | cons op ops ih =>
    have h0 : runOps db (op :: ops) = runOps (applyOp db op) ops := rfl
    rw [h0]
    exact ih (wf_applyOp op hW) (fineInv_applyOp op hW hF)

theorem availInv_runOps {db : DB} (ops : List Op) (hW : WF db) (hA : AvailInv db)
    (hs : safeSeq db ops = true) : AvailInv (runOps db ops) := by
  induction ops generalizing db with
  | nil => exact hA
  | cons op ops ih =>
    have h0 : runOps db (op :: ops) = runOps (applyOp db op) ops := rfl
    rw [h0]
    have hs2 : safeOp db op = true ∧ safeSeq (applyOp db op) ops = true := by
      have h1 : safeSeq db (op :: ops) = (safeOp db op && safeSeq (applyOp db op) ops) := rfl
      rw [h1] at hs
      exact Bool.and_eq_true_iff.mp hs
    exact ih (wf_applyOp op hW) (availInv_applyOp op hW hA hs2.1) hs2.2

/-! ### The claims -/

/-- C1, as stated, is false: starting from the consistent, well-formed state
`fixDb` (one available copy of book 1, counter 1), the operation sequence
borrow / administratively mark the borrowed copy "lost" / return leaves
book 1 with available_copies = 1 while no copy has status "available" —
return_book increments the counter even when the copy's status is no longer
"borrowed" and hence is left unchanged (main.py lines 433-436). -/
theorem C1_counterexample :
    WF fixDb ∧ CounterInv fixDb ∧ ¬ CounterInv (runOps fixDb fixBreakOps) := by
  decide

/-- C1 (amended): after any sequence of API operations (borrow, return, pay
fine, copy create/update/delete) from a well-formed consistent state, every
reader's fine_balance equals the sum of that reader's unpaid fine amounts;
and every book's available_copies equals the count of that book's copies with
status "available" provided the sequence is safe, i.e. no copy update moves a
copy to a different book and no return runs on an open borrow whose copy is
not marked "borrowed" or belongs to a different book than the record. -/
theorem C1_counter_invariant (db : DB) (ops : List Op)
    (hW : WF db) (hI : CounterInv db) :
    FineInv (runOps db ops) ∧
    (safeSeq db ops = true → CounterInv (runOps db ops)) :=
  ⟨fineInv_runOps ops hW hI.2,
   fun hs => ⟨availInv_runOps ops hW hI.1 hs, fineInv_runOps ops hW hI.2⟩⟩

/-- Witness for C1: a full borrow / overdue return / pay-fine lifecycle on
concrete data keeps both counters consistent. -/
theorem C1_witness : CounterInv (runOps fixDb fixGoodOps) :=
  (C1_counter_invariant fixDb fixGoodOps (by decide) (by decide)).2 (by decide)

/-- C2: a borrow either succeeds — creating a BorrowRecord due in
category.max_borrow_days days with status "borrowed", flipping the copy to
"borrowed", decrementing the book's available_copies by exactly 1 and
incrementing the reader's borrowed_count by exactly 1 — or fails with an
error and leaves the state unchanged. -/
theorem C2_borrow_atomic (db : DB) (u : UserCtx) (d : Option Nat) (cid : Nat)
    (now : Time) :
    (∀ rid r cat c b,
      borrowResolve u d = Except.ok rid →
      findReader db rid = Option.some r →
      r.status = ReaderStatus.active →
      findCategory db r.category_id = Option.some cat →
      r.borrowed_count < cat.max_borrow_count →
      r.fine_balance ≤ 0 →
      findCopy db cid = Option.some c →
      c.status = CopyStatus.available →
      findBook db c.book_id = Option.some b →
      0 < b.available_copies →
      ∃ db' br,
        borrow db u d cid now = Except.ok (db', br) ∧
        br.due_time = now + 86400 * cat.max_borrow_days ∧
        br.status = BorrowStatus.borrowed ∧
        findCopy db' cid = Option.some { c with status := CopyStatus.borrowed } ∧
        findBook db' c.book_id
          = Option.some { b with available_copies := b.available_copies - 1 } ∧
        findReader db' rid
          = Option.some { r with borrowed_count := r.borrowed_count + 1 }) ∧
    (∀ e, borrow db u d cid now = Except.error e →
      applyOp db (Op.borrowOp u d cid now) = db) := by
  constructor
  · intro rid r cat c b h1 h2 h3 h4 h5 h6 h7 h8 h9 h10
    have hkey : c.copy_id = cid := (findByKey_eq_some h7).2
    have hbkey : b.book_id = c.book_id := (findByKey_eq_some h9).2
    have hrkey : r.reader_id = rid := (findByKey_eq_some h2).2
    have hok : borrow db u d cid now = Except.ok (borrowCommit db r cat c b now) := by
      unfold borrow
      simp only [h1, h2, h4, h7, h9]
      rw [if_neg (show ¬ (r.status ≠ ReaderStatus.active) from fun hc2 => hc2 h3),
        if_neg (not_le.mpr h5), if_neg (not_lt.mpr h6),
        if_neg (show ¬ (c.status ≠ CopyStatus.available) from fun hc2 => hc2 h8),
        if_neg (not_le.mpr h10)]
    refine ⟨(borrowCommit db r cat c b now).1, (borrowCommit db r cat c b now).2,
      by rw [hok], rfl, rfl, ?_, ?_, ?_⟩
    · have hcop : (borrowCommit db r cat c b now).1.copies
          = updByKey BookCopy.copy_id c.copy_id
              (fun x => { x with status := CopyStatus.borrowed }) db.copies := rfl
      have h7' : findByKey BookCopy.copy_id c.copy_id db.copies = Option.some c := by
        rw [hkey]
        exact h7
      have hupd : findByKey BookCopy.copy_id c.copy_id
          (updByKey BookCopy.copy_id c.copy_id
            (fun x => { x with status := CopyStatus.borrowed }) db.copies)
          = (findByKey BookCopy.copy_id c.copy_id db.copies).map
              (fun x => { x with status := CopyStatus.borrowed }) :=
        findByKey_updByKey _ (fun x hx => hx)
      show findByKey BookCopy.copy_id cid (borrowCommit db r cat c b now).1.copies = _
      rw [← hkey, hcop, hupd, h7']
      rfl
    · have hbk : (borrowCommit db r cat c b now).1.books
          = updByKey Book.book_id b.book_id
              (fun x => { x with available_copies := x.available_copies - 1 }) db.books := rfl
      have h9' : findByKey Book.book_id b.book_id db.books = Option.some b := by
        rw [hbkey]
        exact h9
      have hupd : findByKey Book.book_id b.book_id
          (updByKey Book.book_id b.book_id
            (fun x => { x with available_copies := x.available_copies - 1 }) db.books)
          = (findByKey Book.book_id b.book_id db.books).map
              (fun x => { x with available_copies := x.available_copies - 1 }) :=
        findByKey_updByKey _ (fun x hx => hx)
      show findByKey Book.book_id c.book_id (borrowCommit db r cat c b now).1.books = _
      rw [← hbkey, hbk, hupd, h9']
      rfl
    · have hrd : (borrowCommit db r cat c b now).1.readers
          = updByKey Reader.reader_id r.reader_id
              (fun x => { x with borrowed_count := x.borrowed_count + 1 }) db.readers := rfl
      have h2' : findByKey Reader.reader_id r.reader_id db.readers = Option.some r := by
        rw [hrkey]
        exact h2
      have hupd : findByKey Reader.reader_id r.reader_id
          (updByKey Reader.reader_id r.reader_id
            (fun x => { x with borrowed_count := x.borrowed_count + 1 }) db.readers)
          = (findByKey Reader.reader_id r.reader_id db.readers).map
              (fun x => { x with borrowed_count := x.borrowed_count + 1 }) :=
        findByKey_updByKey _ (fun x hx => hx)
      show findByKey Reader.reader_id rid (borrowCommit db r cat c b now).1.readers = _
      rw [← hrkey, hrd, hupd, h2']
      rfl
  · intro e he
    unfold applyOp
    simp only [runOp, he, Except.map]

/-- Witness for C2: on the concrete one-copy library a staff borrow for
reader 1 succeeds with all four mutations. -/
theorem C2_witness :
    ∃ db' br, borrow fixDb staffU (Option.some 1) 1 0 = Except.ok (db', br) ∧
      br.due_time = 0 + 86400 * fixCat.max_borrow_days ∧
      br.status = BorrowStatus.borrowed ∧
      findCopy db' 1 = Option.some { fixCopy with status := CopyStatus.borrowed } ∧
      findBook db' fixCopy.book_id
        = Option.some { fixBook with available_copies := fixBook.available_copies - 1 } ∧
      findReader db' 1
        = Option.some { fixReader with borrowed_count := fixReader.borrowed_count + 1 } :=
  (C2_borrow_atomic fixDb staffU (Option.some 1) 1 0).1 1 fixReader fixCat fixCopy fixBook
    rfl (by decide) (by decide) (by decide) (by decide) (by decide)
    (by decide) (by decide) (by decide) (by decide)

/-- C3, as stated, is false: under the category `fixCatZero` with
fine_per_day = 0, returning 6 days overdue assesses a fine of 0 and creates
NO FineRecord (the `if fine > 0` guard at main.py line 439 skips creation),
while the claim demands exactly one record whose amount is d × f = 0. -/
theorem C3_counterexample :
    findCategory fixDbZero 1 = Option.some fixCatZero ∧
    fixCatZero.fine_per_day = 0 ∧
    (runOps fixDbZero fixZeroOps).fines = [] ∧
    (findBorrow (runOps fixDbZero fixZeroOps) 10).map BorrowRecord.overdue_days
      = Option.some 6 ∧
    (findBorrow (runOps fixDbZero fixZeroOps) 10).map BorrowRecord.status
      = Option.some BorrowStatus.overdue_returned := by
  decide

/-- C3 (amended): for every successful return overdue by d > 0 whole days
under a category with fine_per_day f > 0, the assessed fine equals d × f
plus the fixed damage fine (10.00, i.e. 1000 hundredths) when the damage
flag is set; exactly ONE FineRecord is appended — never two, never a split —
with reason "overdue" and amount equal to that sum; and the reader's
fine_balance and fine_total_history are each incremented by the same amount.
The amendment adds the hypothesis f > 0: with f = 0 and no damage the
assessed sum is 0 and no record is created. -/
theorem C3_overdue_fine (db : DB) (u : UserCtx) (bid : Nat) (dmg : Bool)
    (desc : Option String) (now : Time) (db' : DB) (br' : BorrowRecord)
    (br : BorrowRecord) (r : Reader) (cat : ReaderCategory)
    (hok : return_book db u bid dmg desc now = Except.ok (db', br'))
    (hbr : findBorrow db bid = Option.some br)
    (hr : findReader db br.reader_id = Option.some r)
    (hcat : findCategory db r.category_id = Option.some cat)
    (hd : 0 < overdueDaysOf now br.due_time)
    (hf : 0 < cat.fine_per_day) :
    br'.fine_amount = overdueDaysOf now br.due_time * cat.fine_per_day
        + (if dmg then damageFineAmount else 0) ∧
    br'.fine_status = FineStatus.unpaid ∧
    db'.fines = db.fines ++
      [{ fine_id := db.next_id
         reader_id := r.reader_id
         borrow_id := Option.some br.borrow_id
         reason := FineReason.overdue
         amount := overdueDaysOf now br.due_time * cat.fine_per_day
           + (if dmg then damageFineAmount else 0)
         status := FineRecStatus.unpaid
         paid_at := Option.none }] ∧
    findReader db' br.reader_id = Option.some
      { r with
        borrowed_count := max 0 (r.borrowed_count - 1)
        fine_balance := r.fine_balance + (overdueDaysOf now br.due_time * cat.fine_per_day
          + (if dmg then damageFineAmount else 0))
        fine_total_history := r.fine_total_history
          + (overdueDaysOf now br.due_time * cat.fine_per_day
            + (if dmg then damageFineAmount else 0)) } := by
  obtain ⟨br0, r0, c, b, fine0, status0, hbr0, hst0, hown0, hr0, hc0, hb0, hass, hres⟩ :=
    return_book_ok_inv hok
  rw [hbr0] at hbr
  have hbreq : br = br0 := (Option.some.inj hbr).symm
  subst hbreq
  rw [hr0] at hr
  have hreq : r = r0 := (Option.some.inj hr).symm
  subst hreq
  unfold overdueAssess at hass
  rw [if_pos hd, hcat] at hass
  have hpair := Except.ok.inj hass
  injection hpair with hfe hse
  subst hfe
  subst hse
  have hmul : 0 < overdueDaysOf now br.due_time * cat.fine_per_day := mul_pos hd hf
  have hpos : 0 < (if dmg then
      overdueDaysOf now br.due_time * cat.fine_per_day + damageFineAmount
    else overdueDaysOf now br.due_time * cat.fine_per_day) := by
    cases dmg
    · simpa using hmul
    · simp only [if_true]
      unfold damageFineAmount
      omega
  have hdb : db' = (returnCommit db br r c b (overdueDaysOf now br.due_time)
      (overdueDaysOf now br.due_time * cat.fine_per_day) BorrowStatus.overdue_returned
      dmg desc now).1 := congrArg Prod.fst hres
  have hbre : br' = (returnCommit db br r c b (overdueDaysOf now br.due_time)
      (overdueDaysOf now br.due_time * cat.fine_per_day) BorrowStatus.overdue_returned
      dmg desc now).2 := congrArg Prod.snd hres
  refine ⟨?_, ?_, ?_, ?_⟩
  · rw [hbre]
    show (if (if dmg then overdueDaysOf now br.due_time * cat.fine_per_day + damageFineAmount
              else overdueDaysOf now br.due_time * cat.fine_per_day) > 0
          then (if dmg then overdueDaysOf now br.due_time * cat.fine_per_day + damageFineAmount
                else overdueDaysOf now br.due_time * cat.fine_per_day) else 0) = _
    rw [if_pos hpos]
    cases dmg <;> simp
  · rw [hbre]
    show (if (if dmg then overdueDaysOf now br.due_time * cat.fine_per_day + damageFineAmount
              else overdueDaysOf now br.due_time * cat.fine_per_day) > 0
          then FineStatus.unpaid else FineStatus.none) = _
    rw [if_pos hpos]
  · rw [hdb]
    show (if (if dmg then overdueDaysOf now br.due_time * cat.fine_per_day + damageFineAmount
              else overdueDaysOf now br.due_time * cat.fine_per_day) > 0
          then db.fines ++
            [{ fine_id := db.next_id
               reader_id := r.reader_id
               borrow_id := Option.some br.borrow_id
               reason := if overdueDaysOf now br.due_time > 0 then FineReason.overdue
                         else FineReason.damage
               amount := if dmg then overdueDaysOf now br.due_time * cat.fine_per_day
                           + damageFineAmount
                         else overdueDaysOf now br.due_time * cat.fine_per_day
               status := FineRecStatus.unpaid
               paid_at := Option.none }]
          else db.fines) = _
    rw [if_pos hpos, if_pos hd]
    congr 2
    cases dmg <;> simp
  · rw [hdb]
    have hrkey : r.reader_id = br.reader_id := (findByKey_eq_some hr0).2
    have hrd : (returnCommit db br r c b (overdueDaysOf now br.due_time)
        (overdueDaysOf now br.due_time * cat.fine_per_day) BorrowStatus.overdue_returned
        dmg desc now).1.readers
        = updByKey Reader.reader_id r.reader_id
            (fun x =>
              if (if dmg then overdueDaysOf now br.due_time * cat.fine_per_day + damageFineAmount
                  else overdueDaysOf now br.due_time * cat.fine_per_day) > 0 then
                { x with borrowed_count := max 0 (x.borrowed_count - 1)
                         fine_balance := x.fine_balance +
                           (if dmg then overdueDaysOf now br.due_time * cat.fine_per_day
                              + damageFineAmount
                            else overdueDaysOf now br.due_time * cat.fine_per_day)
                         fine_total_history := x.fine_total_history +
                           (if dmg then overdueDaysOf now br.due_time * cat.fine_per_day
                              + damageFineAmount
                            else overdueDaysOf now br.due_time * cat.fine_per_day) }
              else { x with borrowed_count := max 0 (x.borrowed_count - 1) }) db.readers := rfl
    have hr0' : findByKey Reader.reader_id r.reader_id db.readers = Option.some r := by
      rw [hrkey]
      exact hr0
    have hupd : findByKey Reader.reader_id r.reader_id
        (updByKey Reader.reader_id r.reader_id
          (fun x =>
            if (if dmg then overdueDaysOf now br.due_time * cat.fine_per_day + damageFineAmount
                else overdueDaysOf now br.due_time * cat.fine_per_day) > 0 then
              { x with borrowed_count := max 0 (x.borrowed_count - 1)
                       fine_balance := x.fine_balance +
                         (if dmg then overdueDaysOf now br.due_time * cat.fine_per_day
                            + damageFineAmount
                          else overdueDaysOf now br.due_time * cat.fine_per_day)
                       fine_total_history := x.fine_total_history +
                         (if dmg then overdueDaysOf now br.due_time * cat.fine_per_day
                            + damageFineAmount
                          else overdueDaysOf now br.due_time * cat.fine_per_day) }
            else { x with borrowed_count := max 0 (x.borrowed_count - 1) }) db.readers)
        = (findByKey Reader.reader_id r.reader_id db.readers).map
            (fun x =>
              if (if dmg then overdueDaysOf now br.due_time * cat.fine_per_day + damageFineAmount
                  else overdueDaysOf now br.due_time * cat.fine_per_day) > 0 then
                { x with borrowed_count := max 0 (x.borrowed_count - 1)
                         fine_balance := x.fine_balance +
                           (if dmg then overdueDaysOf now br.due_time * cat.fine_per_day
                              + damageFineAmount
                            else overdueDaysOf now br.due_time * cat.fine_per_day)
                         fine_total_history := x.fine_total_history +
                           (if dmg then overdueDaysOf now br.due_time * cat.fine_per_day
                              + damageFineAmount
                            else overdueDaysOf now br.due_time * cat.fine_per_day) }
              else { x with borrowed_count := max 0 (x.borrowed_count - 1) }) := by
      refine findByKey_updByKey _ ?_
      intro x hx
      by_cases hcond : (if dmg then overdueDaysOf now br.due_time * cat.fine_per_day
          + damageFineAmount
        else overdueDaysOf now br.due_time * cat.fine_per_day) > 0
      · rw [if_pos hcond]
        exact hx
      · rw [if_neg hcond]
        exact hx
    show findByKey Reader.reader_id br.reader_id _ = _
    rw [← hrkey, hrd, hupd, hr0', Option.map_some']
    rw [if_pos hpos]
    cases dmg <;> simp

/-- Witness for C3: the concrete 6-days-overdue return at 0.50/day yields a
3.00 fine. -/
theorem C3_witness :
    fixRetBr.fine_amount = overdueDaysOf 1728000 fixOpenBorrow.due_time * fixCat.fine_per_day
      + (if false then damageFineAmount else 0) :=
  (C3_overdue_fine fixDbBorrowed staffU 6 false Option.none 1728000 fixRetDb fixRetBr
    fixOpenBorrow ⟨1, 1, ReaderStatus.active, 1, 0, 0⟩ fixCat rfl (by decide) (by decide)
    (by decide) (by decide) (by decide)).1

/-- C4: the final status label of a successful return is "damaged_returned"
whenever the damage flag is set (precedence over the overdue label), else
"overdue_returned" when overdue_days > 0, else "returned"; and a not-overdue
not-damaged return sets fine_amount = 0, fine_status = "none" and creates no
FineRecord. -/
theorem C4_return_status (db : DB) (u : UserCtx) (bid : Nat) (dmg : Bool)
    (desc : Option String) (now : Time) (db' : DB) (br' : BorrowRecord)
    (br : BorrowRecord)
    (hok : return_book db u bid dmg desc now = Except.ok (db', br'))
    (hbr : findBorrow db bid = Option.some br) :
    (dmg = true → br'.status = BorrowStatus.damaged_returned) ∧
    (dmg = false → 0 < overdueDaysOf now br.due_time →
      br'.status = BorrowStatus.overdue_returned) ∧
    (dmg = false → overdueDaysOf now br.due_time = 0 →
      br'.status = BorrowStatus.returned ∧ br'.fine_amount = 0 ∧
      br'.fine_status = FineStatus.none ∧ db'.fines = db.fines) := by
  obtain ⟨br0, r0, c, b, fine0, status0, hbr0, hst0, hown0, hr0, hc0, hb0, hass, hres⟩ :=
    return_book_ok_inv hok
  rw [hbr0] at hbr
  have hbreq : br = br0 := (Option.some.inj hbr).symm
  subst hbreq
  have hbre : br' = (returnCommit db br r0 c b (overdueDaysOf now br.due_time)
      fine0 status0 dmg desc now).2 := congrArg Prod.snd hres
  have hdb : db' = (returnCommit db br r0 c b (overdueDaysOf now br.due_time)
      fine0 status0 dmg desc now).1 := congrArg Prod.fst hres
  refine ⟨?_, ?_, ?_⟩
  · intro hdmg
    subst hdmg
    rw [hbre]
    rfl
  · intro hdmg hod
    subst hdmg
    unfold overdueAssess at hass
    rw [if_pos hod] at hass
    cases hcat0 : findCategory db r0.category_id with
    | none =>
      rw [hcat0] at hass
      cases hass
    | some cat =>
      rw [hcat0] at hass
      have hpair := Except.ok.inj hass
      injection hpair with hfe hse
      rw [hbre]
      have hshow : (returnCommit db br r0 c b (overdueDaysOf now br.due_time)
          fine0 status0 false desc now).2.status = status0 := rfl
      rw [hshow, ← hse]
  · intro hdmg hod0
    subst hdmg
    unfold overdueAssess at hass
    have hnot : ¬ (overdueDaysOf now br.due_time > 0) := by
      rw [hod0]
      omega
    rw [if_neg hnot] at hass
    have hpair := Except.ok.inj hass
    injection hpair with hfe hse
    have hnp : ¬ (fine0 > 0) := by
      rw [← hfe]
      decide
    refine ⟨?_, ?_, ?_, ?_⟩
    · rw [hbre]
      have hshow : (returnCommit db br r0 c b (overdueDaysOf now br.due_time)
          fine0 status0 false desc now).2.status = status0 := rfl
      rw [hshow, ← hse]
    · rw [hbre]
      have hshow : (returnCommit db br r0 c b (overdueDaysOf now br.due_time)
          fine0 status0 false desc now).2.fine_amount
          = (if fine0 > 0 then fine0 else 0) := rfl
      rw [hshow, if_neg hnp]
    · rw [hbre]
      have hshow : (returnCommit db br r0 c b (overdueDaysOf now br.due_time)
          fine0 status0 false desc now).2.fine_status
          = (if fine0 > 0 then FineStatus.unpaid else FineStatus.none) := rfl
      rw [hshow, if_neg hnp]
    · rw [hdb]
      have hshow : (returnCommit db br r0 c b (overdueDaysOf now br.due_time)
          fine0 status0 false desc now).1.fines
          = (if fine0 > 0 then
               db.fines ++ [{ fine_id := db.next_id
                              reader_id := r0.reader_id
                              borrow_id := Option.some br.borrow_id
                              reason := if overdueDaysOf now br.due_time > 0
                                        then FineReason.overdue else FineReason.damage
                              amount := fine0
                              status := FineRecStatus.unpaid
                              paid_at := Option.none }]
             else db.fines) := rfl
      rw [hshow, if_neg hnp]

/-- Witness for C4: an on-time, undamaged return of the open borrow yields
status "returned", zero fine and no fine record. -/
theorem C4_witness :
    fixRetOnTimeBr.status = BorrowStatus.returned ∧
    fixRetOnTimeBr.fine_amount = 0 ∧
    fixRetOnTimeBr.fine_status = FineStatus.none ∧
    fixRetOnTimeDb.fines = fixDbBorrowed.fines :=
  (C4_return_status fixDbBorrowed staffU 6 false Option.none 1000000 fixRetOnTimeDb
    fixRetOnTimeBr fixOpenBorrow rfl (by decide)).2.2 rfl (by decide)

/-- C5: a successful payment of an unpaid fine creates one PaymentRecord with
amount = fine.amount and the normalized method (the given method when it is
one of cash/wechat/alipay/card/other, "other" otherwise); marks the fine paid
with paid_at set; decrements the reader's fine_balance by fine.amount floored
at 0; and, when the fine references a BorrowRecord, sets that record's
fine_status to "paid". -/
theorem C5_pay_fine_effect (db : DB) (u : UserCtx) (fid : Nat) (m : String)
    (now : Time) (db' : DB) (fr : FineRecord) (r : Reader)
    (hok : pay_fine db u fid m now = Except.ok db')
    (hfr : findFine db fid = Option.some fr)
    (hr : findReader db fr.reader_id = Option.some r) :
    db'.payments = db.payments ++
      [{ pay_id := db.next_id
         reader_id := fr.reader_id
         fine_id := fr.fine_id
         amount := fr.amount
         method := normMethod m
         paid_at := now }] ∧
    ((∃ pm, m = methodStr pm) → methodStr (normMethod m) = m) ∧
    ((¬ ∃ pm, m = methodStr pm) → normMethod m = PayMethod.other) ∧
    findFine db' fid = Option.some
      { fr with status := FineRecStatus.paid, paid_at := Option.some now } ∧
    findReader db' fr.reader_id = Option.some
      { r with fine_balance := max 0 (r.fine_balance - fr.amount) } ∧
    (∀ bid2 br2, fr.borrow_id = Option.some bid2 → 0 < bid2 →
      findBorrow db bid2 = Option.some br2 →
      findBorrow db' bid2 = Option.some { br2 with fine_status := FineStatus.paid }) := by
  obtain ⟨fr0, r0, hfr0, hst0, hown0, hr0, hres⟩ := pay_fine_ok_inv hok
  rw [hfr0] at hfr
  have hfreq : fr = fr0 := (Option.some.inj hfr).symm
  subst hfreq
  rw [hr0] at hr
  have hreq : r = r0 := (Option.some.inj hr).symm
  subst hreq
  subst hres
  have hfkey : fr.fine_id = fid := (findByKey_eq_some hfr0).2
  have hrkey : r.reader_id = fr.reader_id := (findByKey_eq_some hr0).2
  refine ⟨rfl, ?_, ?_, ?_, ?_, ?_⟩
  · rintro ⟨pm, hm⟩
    subst hm
    cases pm <;> decide
  · intro hne
    have h1 : ¬ (m = "cash") := fun h => hne ⟨PayMethod.cash, h⟩
    have h2 : ¬ (m = "wechat") := fun h => hne ⟨PayMethod.wechat, h⟩
    have h3 : ¬ (m = "alipay") := fun h => hne ⟨PayMethod.alipay, h⟩
    have h4 : ¬ (m = "card") := fun h => hne ⟨PayMethod.card, h⟩
    unfold normMethod
    rw [if_neg h1, if_neg h2, if_neg h3, if_neg h4]
  · have hfines : (payCommit db fr r m now).fines
        = updByKey FineRecord.fine_id fr.fine_id
            (fun x => { x with status := FineRecStatus.paid, paid_at := Option.some now })
            db.fines := rfl
    have hfr' : findByKey FineRecord.fine_id fr.fine_id db.fines = Option.some fr := by
      rw [hfkey]
      exact hfr0
    have hupd : findByKey FineRecord.fine_id fr.fine_id
        (updByKey FineRecord.fine_id fr.fine_id
          (fun x => { x with status := FineRecStatus.paid, paid_at := Option.some now })
          db.fines)
        = (findByKey FineRecord.fine_id fr.fine_id db.fines).map
            (fun x => { x with status := FineRecStatus.paid, paid_at := Option.some now }) :=
      findByKey_updByKey _ (fun x hx => hx)
    show findByKey FineRecord.fine_id fid (payCommit db fr r m now).fines = _
    rw [← hfkey, hfines, hupd, hfr']
    rfl
  · have hrd : (payCommit db fr r m now).readers
        = updByKey Reader.reader_id r.reader_id
            (fun x => { x with fine_balance := max 0 (x.fine_balance - fr.amount) })
            db.readers := rfl
    have hr' : findByKey Reader.reader_id r.reader_id db.readers = Option.some r := by
      rw [hrkey]
      exact hr0
    have hupd : findByKey Reader.reader_id r.reader_id
        (updByKey Reader.reader_id r.reader_id
          (fun x => { x with fine_balance := max 0 (x.fine_balance - fr.amount) })
          db.readers)
        = (findByKey Reader.reader_id r.reader_id db.readers).map
            (fun x => { x with fine_balance := max 0 (x.fine_balance - fr.amount) }) :=
      findByKey_updByKey _ (fun x hx => hx)
    show findByKey Reader.reader_id fr.reader_id (payCommit db fr r m now).readers = _
    rw [← hrkey, hrd, hupd, hr']
    rfl
  · intro bid2 br2 hbid hpos hbr2
    have htr : pyTruthy fr.borrow_id = true := by
      rw [hbid]
      unfold pyTruthy
      simp
      omega
    have hgd : fr.borrow_id.getD 0 = bid2 := by
      rw [hbid]
      rfl
    have hbor : (payCommit db fr r m now).borrows
        = updByKey BorrowRecord.borrow_id bid2
            (fun x => { x with fine_status := FineStatus.paid }) db.borrows := by
      have h0 : (payCommit db fr r m now).borrows
          = (if pyTruthy fr.borrow_id then
               updByKey BorrowRecord.borrow_id (fr.borrow_id.getD 0)
                 (fun x => { x with fine_status := FineStatus.paid }) db.borrows
             else db.borrows) := rfl
      rw [h0, htr, hgd]
      simp
    have hupd : findByKey BorrowRecord.borrow_id bid2
        (updByKey BorrowRecord.borrow_id bid2
          (fun x => { x with fine_status := FineStatus.paid }) db.borrows)
        = (findByKey BorrowRecord.borrow_id bid2 db.borrows).map
            (fun x => { x with fine_status := FineStatus.paid }) :=
      findByKey_updByKey _ (fun x hx => hx)
    have hbr2' : findByKey BorrowRecord.borrow_id bid2 db.borrows
        = Option.some br2 := hbr2
    show findByKey BorrowRecord.borrow_id bid2 (payCommit db fr r m now).borrows = _
    rw [hbor, hupd, hbr2']
    rfl

/-- Witness for C5: paying the concrete 3.00 fine by wechat records one
payment of 3.00. -/
theorem C5_witness :
    fixPayDb.payments = fixDbFine.payments ++
      [{ pay_id := fixDbFine.next_id
         reader_id := fixUnpaidFine.reader_id
         fine_id := fixUnpaidFine.fine_id
         amount := fixUnpaidFine.amount
         method := normMethod ("wechat")
         paid_at := 2000000 }] :=
  (C5_pay_fine_effect fixDbFine staffU 5 ("wechat") 2000000 fixPayDb fixUnpaidFine
    ⟨1, 1, ReaderStatus.active, 0, 300, 300⟩ rfl (by decide) (by decide)).1

/-- C6: borrow's preconditions are checked in order with the first failure
winning as a distinct error: (1) the acting reader is resolved — a "reader"
caller uses its bound identity (any supplied reader id is ignored) and fails
with a distinct error when unbound, staff must supply one; (2) the reader
must exist with status "active"; (3) borrowed_count < category's
max_borrow_count; (4) fine_balance must be 0 (an outstanding balance is a
distinct error); (5) the copy must exist with status "available"; (6) the
owning book must have available_copies > 0; and any failing check leaves the
state unchanged. -/
theorem C6_borrow_check_order (db : DB) (u : UserCtx) (d : Option Nat)
    (cid : Nat) (now : Time) :
    (u.role = Role.reader → pyTruthy u.reader_id = false →
      borrow db u d cid now = Except.error ApiError.readerNotBound) ∧
    (u.role = Role.reader → ∀ d2, borrow db u d cid now = borrow db u d2 cid now) ∧
    (u.role ≠ Role.reader → pyTruthy d = false →
      borrow db u d cid now = Except.error ApiError.missingReaderId) ∧
    (∀ rid, borrowResolve u d = Except.ok rid →
      (findReader db rid = Option.none ∨
        (∃ r, findReader db rid = Option.some r ∧ r.status ≠ ReaderStatus.active)) →
      borrow db u d cid now = Except.error ApiError.readerNotActive) ∧
    (∀ rid r cat, borrowResolve u d = Except.ok rid →
      findReader db rid = Option.some r → r.status = ReaderStatus.active →
      findCategory db r.category_id = Option.some cat →
      cat.max_borrow_count ≤ r.borrowed_count →
      borrow db u d cid now = Except.error ApiError.maxBorrowReached) ∧
    (∀ rid r cat, borrowResolve u d = Except.ok rid →
      findReader db rid = Option.some r → r.status = ReaderStatus.active →
      findCategory db r.category_id = Option.some cat →
      r.borrowed_count < cat.max_borrow_count →
      0 < r.fine_balance →
      borrow db u d cid now = Except.error ApiError.unpaidFineBlocks) ∧
    (∀ rid r cat, borrowResolve u d = Except.ok rid →
      findReader db rid = Option.some r → r.status = ReaderStatus.active →
      findCategory db r.category_id = Option.some cat →
      r.borrowed_count < cat.max_borrow_count →
      r.fine_balance = 0 →
      (findCopy db cid = Option.none ∨
        (∃ c, findCopy db cid = Option.some c ∧ c.status ≠ CopyStatus.available)) →
      borrow db u d cid now = Except.error ApiError.copyNotBorrowable) ∧
    (∀ rid r cat c, borrowResolve u d = Except.ok rid →
      findReader db rid = Option.some r → r.status = ReaderStatus.active →
      findCategory db r.category_id = Option.some cat →
      r.borrowed_count < cat.max_borrow_count →
      r.fine_balance = 0 →
      findCopy db cid = Option.some c → c.status = CopyStatus.available →
      (findBook db c.book_id = Option.none ∨
        (∃ b, findBook db c.book_id = Option.some b ∧ b.available_copies ≤ 0)) →
      borrow db u d cid now = Except.error ApiError.noAvailableStock) ∧
    (∀ e, borrow db u d cid now = Except.error e →
      applyOp db (Op.borrowOp u d cid now) = db) := by
  refine ⟨?_, ?_, ?_, ?_, ?_, ?_, ?_, ?_, ?_⟩
  · intro hrole htr
    have hres : borrowResolve u d = Except.error ApiError.readerNotBound := by
      unfold borrowResolve
      rw [if_pos hrole, if_neg (by simp [htr])]
    unfold borrow
    simp only [hres]
  · intro hrole d2
    have hre : borrowResolve u d = borrowResolve u d2 := by
      unfold borrowResolve
      rw [if_pos hrole]
      rw [if_pos hrole]
    unfold borrow
    rw [hre]
  · intro hrole htr
    have hres : borrowResolve u d = Except.error ApiError.missingReaderId := by
      unfold borrowResolve
      rw [if_neg hrole, if_neg (by simp [htr])]
    unfold borrow
    simp only [hres]
  · intro rid hres hdisj
    unfold borrow
    rcases hdisj with hnone | ⟨r, hsome, hst⟩
    · simp only [hres, hnone]
    · simp only [hres, hsome]
      rw [if_pos hst]
  · intro rid r cat hres hsome hst hcat hge
    unfold borrow
    simp only [hres, hsome, hcat]
    rw [if_neg (show ¬ (r.status ≠ ReaderStatus.active) from fun hc2 => hc2 hst),
      if_pos hge]
  · intro rid r cat hres hsome hst hcat hlt hbal
    unfold borrow
    simp only [hres, hsome, hcat]
    rw [if_neg (show ¬ (r.status ≠ ReaderStatus.active) from fun hc2 => hc2 hst),
      if_neg (not_le.mpr hlt), if_pos hbal]
  · intro rid r cat hres hsome hst hcat hlt hbal hdisj
    have hnb : ¬ (r.fine_balance > 0) := by
      rw [hbal]
      decide
    unfold borrow
    rcases hdisj with hnone | ⟨c, hsomec, hcs⟩
    · simp only [hres, hsome, hcat, hnone]
      rw [if_neg (show ¬ (r.status ≠ ReaderStatus.active) from fun hc2 => hc2 hst),
        if_neg (not_le.mpr hlt), if_neg hnb]
    · simp only [hres, hsome, hcat, hsomec]
      rw [if_neg (show ¬ (r.status ≠ ReaderStatus.active) from fun hc2 => hc2 hst),
        if_neg (not_le.mpr hlt), if_neg hnb, if_pos hcs]
  · intro rid r cat c hres hsome hst hcat hlt hbal hsomec hcs hdisj
    have hnb : ¬ (r.fine_balance > 0) := by
      rw [hbal]
      decide
    unfold borrow
    rcases hdisj with hnone | ⟨b, hsomeb, hble⟩
    · simp only [hres, hsome, hcat, hsomec, hnone]
      rw [if_neg (show ¬ (r.status ≠ ReaderStatus.active) from fun hc2 => hc2 hst),
        if_neg (not_le.mpr hlt), if_neg hnb,
        if_neg (show ¬ (c.status ≠ CopyStatus.available) from fun hc2 => hc2 hcs)]
    · simp only [hres, hsome, hcat, hsomec, hsomeb]
      rw [if_neg (show ¬ (r.status ≠ ReaderStatus.active) from fun hc2 => hc2 hst),
        if_neg (not_le.mpr hlt), if_neg hnb,
        if_neg (show ¬ (c.status ≠ CopyStatus.available) from fun hc2 => hc2 hcs),
        if_pos hble]
  · intro e he
    unfold applyOp
    simp only [runOp, he, Except.map]

/-- Witness for C6: with an outstanding 3.00 balance the concrete borrow is
rejected with the distinct unpaid-fine error, and a reader caller's supplied
reader id is ignored. -/
theorem C6_witness :
    borrow fixDbFine staffU (Option.some 1) 1 0
      = Except.error ApiError.unpaidFineBlocks ∧
    borrow fixDbPaid readerU (Option.some 99) 1 0
      = borrow fixDbPaid readerU Option.none 1 0 :=
  ⟨(C6_borrow_check_order fixDbFine staffU (Option.some 1) 1 0).2.2.2.2.2.1
      1 ⟨1, 1, ReaderStatus.active, 0, 300, 300⟩ fixCat rfl (by decide) (by decide)
      (by decide) (by decide) (by decide),
   (C6_borrow_check_order fixDbPaid readerU (Option.some 99) 1 0).2.1 (by decide)
      Option.none⟩

/-- C7: paying a fine whose status is not "unpaid" is rejected with an error
and changes no state, and returning a BorrowRecord whose status is not
"borrowed" is rejected with an error and changes no state. -/
theorem C7_idempotence_rejection (db : DB) (u : UserCtx) (fid : Nat) (m : String)
    (now : Time) (bid : Nat) (dmg : Bool) (desc : Option String) :
    (∀ fr, findFine db fid = Option.some fr → fr.status ≠ FineRecStatus.unpaid →
      pay_fine db u fid m now = Except.error ApiError.fineNotFoundOrPaid ∧
      applyOp db (Op.payOp u fid m now) = db) ∧
    (∀ br, findBorrow db bid = Option.some br → br.status ≠ BorrowStatus.borrowed →
      return_book db u bid dmg desc now
        = Except.error ApiError.borrowNotFoundOrReturned ∧
      applyOp db (Op.returnOp u bid dmg desc now) = db) := by
  constructor
  · intro fr hfr hst
    have herr : pay_fine db u fid m now = Except.error ApiError.fineNotFoundOrPaid := by
      unfold pay_fine
      simp only [hfr]
      rw [if_pos hst]
    refine ⟨herr, ?_⟩
    unfold applyOp
    simp only [runOp, herr]
  · intro br hbr hst
    have herr : return_book db u bid dmg desc now
        = Except.error ApiError.borrowNotFoundOrReturned := by
      unfold return_book
      simp only [hbr]
      rw [if_pos hst]
    refine ⟨herr, ?_⟩
    unfold applyOp
    simp only [runOp, herr, Except.map]

/-- Witness for C7: re-paying the already-paid fine 5 and re-returning the
already-returned borrow 6 are both rejected and leave the state intact. -/
theorem C7_witness :
    (pay_fine fixDbPaid staffU 5 ("cash") 0
       = Except.error ApiError.fineNotFoundOrPaid ∧
     applyOp fixDbPaid (Op.payOp staffU 5 ("cash") 0) = fixDbPaid) ∧
    (return_book fixDbPaid staffU 6 false Option.none 0
       = Except.error ApiError.borrowNotFoundOrReturned ∧
     applyOp fixDbPaid (Op.returnOp staffU 6 false Option.none 0) = fixDbPaid) :=
  ⟨(C7_idempotence_rejection fixDbPaid staffU 5 ("cash") 0 6 false Option.none).1
      ⟨5, 1, Option.some 6, FineReason.overdue, 300, FineRecStatus.paid,
       Option.some 1728000⟩ (by decide) (by decide),
   (C7_idempotence_rejection fixDbPaid staffU 5 ("cash") 0 6 false Option.none).2
      ⟨6, 1, 1, 1, 0, 1209600, Option.some 1728000, BorrowStatus.overdue_returned,
       6, false, Option.none, 300, FineStatus.paid⟩ (by decide) (by decide)⟩

/-- C8: an administrative copy status update adjusts the owning book's
available_copies (decrement when a copy leaves "available", increment when it
enters it); deleting a copy applies the same adjustment before removal and is
rejected while the copy is "borrowed"; deleting a book is rejected while any
copy still references it. -/
theorem C8_admin_copy_counters (db : DB) (cid : Nat) (data : CopyIn) (bid : Nat) :
    (∀ c b res, update_copy db cid data = Except.ok res →
      findCopy db cid = Option.some c →
      findBook db c.book_id = Option.some b →
      ((c.status = CopyStatus.available →
        (updateCopyRow c data).status ≠ CopyStatus.available →
        findBook res.1 c.book_id = Option.some
          { b with available_copies := b.available_copies - 1 }) ∧
       (c.status ≠ CopyStatus.available →
        (updateCopyRow c data).status = CopyStatus.available →
        findBook res.1 c.book_id = Option.some
          { b with available_copies := b.available_copies + 1 }))) ∧
    (∀ c, findCopy db cid = Option.some c → c.status = CopyStatus.borrowed →
      delete_copy db cid = Except.error ApiError.copyBorrowedNoDelete ∧
      applyOp db (Op.deleteCopyOp cid) = db) ∧
    (∀ c b db2, delete_copy db cid = Except.ok db2 →
      findCopy db cid = Option.some c →
      findBook db c.book_id = Option.some b →
      (db.copies.map BookCopy.copy_id).Nodup →
      findBook db2 c.book_id = Option.some
        { b with total_copies := b.total_copies - 1
                 available_copies := b.available_copies -
                   (if c.status = CopyStatus.available then 1 else 0) } ∧
      findCopy db2 cid = Option.none) ∧
    (∀ b, findBook db bid = Option.some b →
      (∃ c ∈ db.copies, c.book_id = bid) →
      delete_book_api db bid = Except.error ApiError.bookHasCopies) := by
  refine ⟨?_, ?_, ?_, ?_⟩
  · intro c b res hok hc hb
    obtain ⟨c0, hc0, hres⟩ := update_copy_ok_inv hok
    rw [hc0] at hc
    have hceq : c = c0 := (Option.some.inj hc).symm
    subst hceq
    have hbkey : b.book_id = c.book_id := (findByKey_eq_some hb).2
    have hbooks : res.1.books
        = (match findBook db c.book_id with
           | Option.none => db.books
           | Option.some bq =>
             if c.status ≠ (updateCopyRow c data).status then
               updByKey Book.book_id bq.book_id
                 (fun x => { x with available_copies := x.available_copies
                     + (if (updateCopyRow c data).status = CopyStatus.available then 1 else 0)
                     - (if c.status = CopyStatus.available then 1 else 0) }) db.books
             else db.books) := by
      rw [hres]
      rfl
    have hb' : findByKey Book.book_id b.book_id db.books = Option.some b := by
      rw [hbkey]
      exact hb
    constructor
    · intro hold hnew
      have hne : c.status ≠ (updateCopyRow c data).status :=
        fun h => hnew (h ▸ hold)
      have hbooks2 : res.1.books = updByKey Book.book_id b.book_id
          (fun x => { x with available_copies := x.available_copies
              + (if (updateCopyRow c data).status = CopyStatus.available then 1 else 0)
              - (if c.status = CopyStatus.available then 1 else 0) }) db.books := by
        rw [hbooks, hb]
        show (if c.status ≠ (updateCopyRow c data).status then
            updByKey Book.book_id b.book_id
              (fun x => { x with available_copies := x.available_copies
                  + (if (updateCopyRow c data).status = CopyStatus.available then 1 else 0)
                  - (if c.status = CopyStatus.available then 1 else 0) }) db.books
          else db.books) = _
        rw [if_pos hne]
      have hupd : findByKey Book.book_id b.book_id
          (updByKey Book.book_id b.book_id
            (fun x => { x with available_copies := x.available_copies
                + (if (updateCopyRow c data).status = CopyStatus.available then 1 else 0)
                - (if c.status = CopyStatus.available then 1 else 0) }) db.books)
          = (findByKey Book.book_id b.book_id db.books).map
              (fun x => { x with available_copies := x.available_copies
                  + (if (updateCopyRow c data).status = CopyStatus.available then 1 else 0)
                  - (if c.status = CopyStatus.available then 1 else 0) }) :=
        findByKey_updByKey _ (fun x hx => hx)
      show findByKey Book.book_id c.book_id res.1.books = _
      rw [← hbkey, hbooks2, hupd, hb', Option.map_some']
      rw [if_neg hnew, if_pos hold]
      simp
    · intro hold hnew
      have hne : c.status ≠ (updateCopyRow c data).status :=
        fun h => hold (h.symm ▸ hnew)
      have hbooks2 : res.1.books = updByKey Book.book_id b.book_id
          (fun x => { x with available_copies := x.available_copies
              + (if (updateCopyRow c data).status = CopyStatus.available then 1 else 0)
              - (if c.status = CopyStatus.available then 1 else 0) }) db.books := by
        rw [hbooks, hb]
        show (if c.status ≠ (updateCopyRow c data).status then
            updByKey Book.book_id b.book_id
              (fun x => { x with available_copies := x.available_copies
                  + (if (updateCopyRow c data).status = CopyStatus.available then 1 else 0)
                  - (if c.status = CopyStatus.available then 1 else 0) }) db.books
          else db.books) = _
        rw [if_pos hne]
      have hupd : findByKey Book.book_id b.book_id
          (updByKey Book.book_id b.book_id
            (fun x => { x with available_copies := x.available_copies
                + (if (updateCopyRow c data).status = CopyStatus.available then 1 else 0)
                - (if c.status = CopyStatus.available then 1 else 0) }) db.books)
          = (findByKey Book.book_id b.book_id db.books).map
              (fun x => { x with available_copies := x.available_copies
                  + (if (updateCopyRow c data).status = CopyStatus.available then 1 else 0)
                  - (if c.status = CopyStatus.available then 1 else 0) }) :=
        findByKey_updByKey _ (fun x hx => hx)
      show findByKey Book.book_id c.book_id res.1.books = _
      rw [← hbkey, hbooks2, hupd, hb', Option.map_some']
      rw [if_pos hnew, if_neg hold]
      simp
  · intro c hc hst
    have herr : delete_copy db cid = Except.error ApiError.copyBorrowedNoDelete := by
      unfold delete_copy
      simp only [hc]
      rw [if_pos hst]
    refine ⟨herr, ?_⟩
    unfold applyOp
    simp only [runOp, herr]
  · intro c b db2 hok hc hb hN
    obtain ⟨c0, hc0, hst0, hres⟩ := delete_copy_ok_inv hok
    rw [hc0] at hc
    have hceq : c = c0 := (Option.some.inj hc).symm
    subst hceq
    have hckey : c.copy_id = cid := (findByKey_eq_some hc0).2
    have hcmem : c ∈ db.copies := (findByKey_eq_some hc0).1
    have hbkey : b.book_id = c.book_id := (findByKey_eq_some hb).2
    have hb' : findByKey Book.book_id b.book_id db.books = Option.some b := by
      rw [hbkey]
      exact hb
    obtain ⟨l1, l2, hsp, h1, h2⟩ := split_of_mem_nodup hcmem hN
    constructor
    · have hbooks : db2.books = updByKey Book.book_id b.book_id
          (fun x => { x with
              total_copies := x.total_copies - 1
              available_copies := x.available_copies -
                (if c.status = CopyStatus.available then 1 else 0) }) db.books := by
        rw [hres]
        have h0 : (deleteCopyCommit db c).books = (match findBook db c.book_id with
            | Option.none => db.books
            | Option.some bq => updByKey Book.book_id bq.book_id
                (fun x => { x with
                    total_copies := x.total_copies - 1
                    available_copies := x.available_copies -
                      (if c.status = CopyStatus.available then 1 else 0) }) db.books) := rfl
        rw [h0, hb]
      have hupd : findByKey Book.book_id b.book_id
          (updByKey Book.book_id b.book_id
            (fun x => { x with
                total_copies := x.total_copies - 1
                available_copies := x.available_copies -
                  (if c.status = CopyStatus.available then 1 else 0) }) db.books)
          = (findByKey Book.book_id b.book_id db.books).map
              (fun x => { x with
                  total_copies := x.total_copies - 1
                  available_copies := x.available_copies -
                    (if c.status = CopyStatus.available then 1 else 0) }) :=
        findByKey_updByKey _ (fun x hx => hx)
      show findByKey Book.book_id c.book_id db2.books = _
      rw [← hbkey, hbooks, hupd, hb']
      rfl
    · have hcop : db2.copies = l1 ++ l2 := by
        rw [hres]
        have h0 : (deleteCopyCommit db c).copies
            = db.copies.eraseP (fun x => x.copy_id == c.copy_id) := rfl
        rw [h0, hsp]
        exact eraseP_key_split h1
      show findByKey BookCopy.copy_id cid db2.copies = Option.none
      rw [hcop]
      refine List.find?_eq_none.mpr ?_
      intro x hx
      rcases List.mem_append.mp hx with hx1 | hx2
      · simp only [beq_iff_eq]
        rw [← hckey]
        exact h1 x hx1
      · simp only [beq_iff_eq]
        rw [← hckey]
        exact h2 x hx2
  · intro b hb ⟨c, hcmem, hcbid⟩
    have hfound : (db.copies.find? (fun x => x.book_id == bid)).isSome = true := by
      rw [List.find?_isSome]
      exact ⟨c, hcmem, by simp [hcbid]⟩
    unfold delete_book_api
    simp only [hb, hfound]
    rfl

/-- Witness for C8: marking the single available copy of book 1 "lost"
decrements the availability counter to 0. -/
theorem C8_witness :
    findBook fixUpdDb fixCopy.book_id = Option.some
      { fixBook with available_copies := fixBook.available_copies - 1 } :=
  ((C8_admin_copy_counters fixDb 1 ⟨1, "BC1", Option.none, Option.some CopyStatus.lost⟩ 1).1
    fixCopy fixBook (fixUpdDb, fixUpdCopy) rfl (by decide) (by decide)).1
    (by decide) (by decide)

/-- C9: returning an open borrow whose copy's status is no longer "borrowed"
(e.g. administratively set to "lost" while out) leaves the copy table
unchanged, yet still increments the book's available_copies by 1 and still
decrements the reader's borrowed_count, floored at 0. -/
theorem C9_return_nonborrowed_copy (db : DB) (u : UserCtx) (bid : Nat)
    (dmg : Bool) (desc : Option String) (now : Time) (db' : DB) (br' : BorrowRecord)
    (br : BorrowRecord) (r : Reader) (c : BookCopy) (b : Book)
    (hok : return_book db u bid dmg desc now = Except.ok (db', br'))
    (hbr : findBorrow db bid = Option.some br)
    (hr : findReader db br.reader_id = Option.some r)
    (hc : findCopy db br.copy_id = Option.some c)
    (hb : findBook db br.book_id = Option.some b)
    (hcs : c.status ≠ CopyStatus.borrowed) :
    db'.copies = db.copies ∧
    findBook db' br.book_id = Option.some
      { b with available_copies := b.available_copies + 1 } ∧
    (findReader db' br.reader_id).map Reader.borrowed_count
      = Option.some (max 0 (r.borrowed_count - 1)) := by
  obtain ⟨br0, r0, c0, b0, fine0, status0, hbr0, hst0, hown0, hr0, hc0, hb0, hass, hres⟩ :=
    return_book_ok_inv hok
  rw [hbr0] at hbr
  have hbreq : br = br0 := (Option.some.inj hbr).symm
  subst hbreq
  rw [hr0] at hr
  have hreq : r = r0 := (Option.some.inj hr).symm
  subst hreq
  rw [hc0] at hc
  have hceq : c = c0 := (Option.some.inj hc).symm
  subst hceq
  rw [hb0] at hb
  have hbeq : b = b0 := (Option.some.inj hb).symm
  subst hbeq
  have hdb : db' = (returnCommit db br r c b (overdueDaysOf now br.due_time)
      fine0 status0 dmg desc now).1 := congrArg Prod.fst hres
  have hbkey : b.book_id = br.book_id := (findByKey_eq_some hb0).2
  have hrkey : r.reader_id = br.reader_id := (findByKey_eq_some hr0).2
  refine ⟨?_, ?_, ?_⟩
  · rw [hdb]
    have h0 : (returnCommit db br r c b (overdueDaysOf now br.due_time)
        fine0 status0 dmg desc now).1.copies
        = (if c.status = CopyStatus.borrowed then
             updByKey BookCopy.copy_id c.copy_id
               (fun x => { x with status := CopyStatus.available }) db.copies
           else db.copies) := rfl
    rw [h0, if_neg hcs]
  · rw [hdb]
    have h0 : (returnCommit db br r c b (overdueDaysOf now br.due_time)
        fine0 status0 dmg desc now).1.books
        = updByKey Book.book_id b.book_id
            (fun x => { x with available_copies := x.available_copies + 1 }) db.books := rfl
    have hb' : findByKey Book.book_id b.book_id db.books = Option.some b := by
      rw [hbkey]
      exact hb0
    have hupd : findByKey Book.book_id b.book_id
        (updByKey Book.book_id b.book_id
          (fun x => { x with available_copies := x.available_copies + 1 }) db.books)
        = (findByKey Book.book_id b.book_id db.books).map
            (fun x => { x with available_copies := x.available_copies + 1 }) :=
      findByKey_updByKey _ (fun x hx => hx)
    show findByKey Book.book_id br.book_id _ = _
    rw [← hbkey, h0, hupd, hb']
    rfl
  · rw [hdb]
    have h0 : (returnCommit db br r c b (overdueDaysOf now br.due_time)
        fine0 status0 dmg desc now).1.readers
        = updByKey Reader.reader_id r.reader_id
            (fun x =>
              if (if dmg then fine0 + damageFineAmount else fine0) > 0 then
                { x with borrowed_count := max 0 (x.borrowed_count - 1)
                         fine_balance := x.fine_balance +
                           (if dmg then fine0 + damageFineAmount else fine0)
                         fine_total_history := x.fine_total_history +
                           (if dmg then fine0 + damageFineAmount else fine0) }
              else { x with borrowed_count := max 0 (x.borrowed_count - 1) }) db.readers := rfl
    have hr' : findByKey Reader.reader_id r.reader_id db.readers = Option.some r := by
      rw [hrkey]
      exact hr0
    have hupd : findByKey Reader.reader_id r.reader_id
        (updByKey Reader.reader_id r.reader_id
          (fun x =>
            if (if dmg then fine0 + damageFineAmount else fine0) > 0 then
              { x with borrowed_count := max 0 (x.borrowed_count - 1)
                       fine_balance := x.fine_balance +
                         (if dmg then fine0 + damageFineAmount else fine0)
                       fine_total_history := x.fine_total_history +
                         (if dmg then fine0 + damageFineAmount else fine0) }
            else { x with borrowed_count := max 0 (x.borrowed_count - 1) }) db.readers)
        = (findByKey Reader.reader_id r.reader_id db.readers).map
            (fun x =>
              if (if dmg then fine0 + damageFineAmount else fine0) > 0 then
                { x with borrowed_count := max 0 (x.borrowed_count - 1)
                         fine_balance := x.fine_balance +
                           (if dmg then fine0 + damageFineAmount else fine0)
                         fine_total_history := x.fine_total_history +
                           (if dmg then fine0 + damageFineAmount else fine0) }
              else { x with borrowed_count := max 0 (x.borrowed_count - 1) }) := by
      refine findByKey_updByKey _ ?_
      intro x hx
      by_cases hcond : (if dmg then fine0 + damageFineAmount else fine0) > 0
      · rw [if_pos hcond]
        exact hx
      · rw [if_neg hcond]
        exact hx
    show (findByKey Reader.reader_id br.reader_id _).map Reader.borrowed_count = _
    rw [← hrkey, h0, hupd, hr', Option.map_some', Option.map_some']
    by_cases hcond : (if dmg then fine0 + damageFineAmount else fine0) > 0
    · rw [if_pos hcond]
    · rw [if_neg hcond]

/-- Witness for C9: returning borrow 6 while its copy is marked "lost" leaves
the copy row untouched. -/
theorem C9_witness : fixRetLostDb.copies = fixDbLost.copies :=
  (C9_return_nonborrowed_copy fixDbLost staffU 6 false Option.none 1000000
    fixRetLostDb
    ⟨6, 1, 1, 1, 0, 1209600, Option.some 1000000, BorrowStatus.returned,
     0, false, Option.none, 0, FineStatus.none⟩
    fixOpenBorrow ⟨1, 1, ReaderStatus.active, 1, 0, 0⟩
    ⟨1, 1, "BC1", Option.none, CopyStatus.lost⟩ ⟨1, 1, 0⟩
    rfl (by decide) (by decide) (by decide) (by decide) (by decide)).1

/-- C10: a copy update that reassigns the copy to a different book without
changing its status adjusts no book's counters at all — adjustments in
update_copy are triggered only by a status change, never by reassignment. -/
theorem C10_reassign_no_adjust (db : DB) (cid : Nat) (data : CopyIn)
    (res : DB × BookCopy) (c : BookCopy)
    (hok : update_copy db cid data = Except.ok res)
    (hc : findCopy db cid = Option.some c)
    (hne : data.book_id ≠ c.book_id)
    (hst : (updateCopyRow c data).status = c.status) :
    res.1.books = db.books ∧ res.2.book_id = data.book_id := by
  obtain ⟨c0, hc0, hres⟩ := update_copy_ok_inv hok
  rw [hc0] at hc
  have hceq : c = c0 := (Option.some.inj hc).symm
  subst hceq
  constructor
  · have hbooks : res.1.books
        = (match findBook db c.book_id with
           | Option.none => db.books
           | Option.some bq =>
             if c.status ≠ (updateCopyRow c data).status then
               updByKey Book.book_id bq.book_id
                 (fun x => { x with available_copies := x.available_copies
                     + (if (updateCopyRow c data).status = CopyStatus.available then 1 else 0)
                     - (if c.status = CopyStatus.available then 1 else 0) }) db.books
             else db.books) := by
      rw [hres]
      rfl
    rw [hbooks]
    cases hbk : findBook db c.book_id with
    | none => rfl
    | some bq =>
      show (if c.status ≠ (updateCopyRow c data).status then
          updByKey Book.book_id bq.book_id
            (fun x => { x with available_copies := x.available_copies
                + (if (updateCopyRow c data).status = CopyStatus.available then 1 else 0)
                - (if c.status = CopyStatus.available then 1 else 0) }) db.books
        else db.books) = db.books
      rw [if_neg (show ¬ (c.status ≠ (updateCopyRow c data).status) from
        fun hcon => hcon hst.symm)]
  · rw [hres]
    rfl

/-- Witness for C10: moving copy 1 from book 1 to book 2 with its status
unchanged leaves the book table identical. -/
theorem C10_witness :
    fixMoveDb.books = fixDb.books ∧ fixMoveCopy.book_id = 2 :=
  C10_reassign_no_adjust fixDb 1 ⟨2, "BC1", Option.none, Option.none⟩
    (fixMoveDb, fixMoveCopy) fixCopy rfl (by decide) (by decide) (by decide)
